import Mathlib

/-!
Verification of the Document Compliance & Archival core of the
CONTROL-GYD Streamlit application (`streamlit_app.py`), against its
natural-language specification.

The Python source is shallowly embedded below: the persisted tables are
records over lists, the filesystem is an association list from path to
content, SQL queries become list operations, and pandas pipelines become
explicit folds.  All definitions are executable.
-/

namespace GYD

/-! ## Fixed domain catalogs (source lines 24-42) -/

def DOC_OBLIGATORIOS : List String :=
  ["REGISTRO_EPP", "ENTREGA_RIOHS", "IRL", "CONTRATO_TRABAJO",
   "ANEXO_CONTRATO", "LIQUIDACIONES", "FINIQUITO"]

def DOC_EMPRESA_SUGERIDOS : List String :=
  ["CERTIFICADO_CUMPLIMIENTO_LABORAL", "CERTIFICADO_ACCIDENTABILIDAD", "OTROS"]

def DOC_EMPRESA_REQUERIDOS : List String :=
  ["CERTIFICADO_CUMPLIMIENTO_LABORAL", "CERTIFICADO_ACCIDENTABILIDAD"]

def REQ_DOCS_N : Nat := DOC_OBLIGATORIOS.length

/-! ## IntegrityUtil: `safe_name` (source lines 150-153)

```python
def safe_name(s: str) -> str:
    s = (s or "").strip().lower()
    s = re.sub(r"[^a-z0-9]+", "_", s)
    return s.strip("_") or "item"
```
-/

/-- A character kept by the regex character class `[a-z0-9]`
(codes `97..122` are `a..z`, `48..57` are `0..9`). -/
def isAlnumLower (c : Char) : Bool :=
  (97 ≤ c.toNat && c.toNat ≤ 122) || (48 ≤ c.toNat && c.toNat ≤ 57)

/-- ASCII lowercasing, as `str.lower()` acts on ASCII letters
(codes `65..90` are `A..Z`). -/
def pyLower (c : Char) : Char :=
  if 65 ≤ c.toNat && c.toNat ≤ 90 then Char.ofNat (c.toNat + 32) else c

/-- Whitespace characters removed by `str.strip()` (ASCII subset). -/
def isPySpace (c : Char) : Bool :=
  c = ' ' || c = '\t' || c = '\n' || c = '\r' || c = '\x0b' || c = '\x0c'

/-- Remove a class of characters from both ends of a list (`str.strip`). -/
def stripEnds (p : Char → Bool) (l : List Char) : List Char :=
  ((l.dropWhile p).reverse.dropWhile p).reverse

/-- `re.sub(r"[^a-z0-9]+", "_", s)`: each maximal run of characters outside
`[a-z0-9]` becomes a single underscore.  The flag records whether the
previous character was part of such a run. -/
def collapseAux : Bool → List Char → List Char
  | _, [] => []
  | prevBad, c :: rest =>
      if isAlnumLower c then c :: collapseAux false rest
      else if prevBad then collapseAux true rest
      else '_' :: collapseAux true rest

/-- `re.sub(r"[^a-z0-9]+", "_", (s or "").strip().lower()).strip("_")`. -/
def safe_name_core (s : String) : List Char :=
  stripEnds (fun c => c = '_')
    (collapseAux false
      (((s.data.dropWhile isPySpace).reverse.dropWhile isPySpace).reverse.map pyLower))

def safe_name (s : String) : String :=
  if (safe_name_core s).isEmpty then "item" else String.mk (safe_name_core s)

/-! ## ComplianceEngine: `semaforo` (source lines 1237-1247 and 1737-1751)

```python
def semaforo(r):
    tr = int(r.get("trabajadores", 0) or 0)
    pct = float(r.get("cobertura_docs_pct", 0) or 0)
    falt = int(r.get("faltantes_total", 0) or 0)
    if tr == 0:
        return "CRITICO"
    if falt == 0 and pct >= 100:
        return "OK"
    if pct >= 70:
        return "PENDIENTE"
    return "CRITICO"
```
(`_semaforo` at 1737-1751 is the same decision tree with emoji labels.) -/

def semaforo (tr : Nat) (pct : ℚ) (falt : Int) : String :=
  if tr = 0 then "CRITICO"
  else if falt = 0 ∧ pct ≥ 100 then "OK"
  else if pct ≥ 70 then "PENDIENTE"
  else "CRITICO"

end GYD

namespace GYD

/-! ## Proof infrastructure for `safe_name` -/

/-- Every character of a normalized token is `[a-z0-9]` or `'_'`. -/
def tokenOk (l : List Char) : Prop :=
  ∀ c ∈ l, isAlnumLower c = true ∨ c = '_'

/-- No two adjacent underscores. -/
def noDoubleUS (l : List Char) : Prop :=
  List.Chain' (fun a b => ¬(a = '_' ∧ b = '_')) l

theorem collapseAux_tokenOk (l : List Char) : ∀ b, tokenOk (collapseAux b l) := by
  induction l with
  | nil => intro b; simp [collapseAux, tokenOk]
  | cons c rest ih =>
      intro b
      by_cases h : isAlnumLower c = true
      · intro x hx
        simp only [collapseAux, h, if_true, List.mem_cons] at hx
        rcases hx with hx | hx
        · subst hx; exact Or.inl h
        · exact ih false x hx
      · simp only [collapseAux, h, if_false, Bool.false_eq_true] at *
        cases b with
        | true => intro x hx; simp only [if_true] at hx; exact ih true x hx
        | false =>
            intro x hx
            simp only [if_false, Bool.false_eq_true, List.mem_cons] at hx
            rcases hx with hx | hx
            · exact Or.inr hx
            · exact ih true x hx

theorem collapseAux_true_head (l : List Char) :
    ∀ c r, collapseAux true l = c :: r → isAlnumLower c = true := by
  induction l with
  | nil => intro c r h; simp [collapseAux] at h
  | cons a rest ih =>
      intro c r h
      by_cases ha : isAlnumLower a = true
      · simp only [collapseAux, ha, if_true] at h
        injection h with h1 h2
        exact h1 ▸ ha
      · simp only [collapseAux, ha, if_true, if_false, Bool.false_eq_true] at h
        exact ih c r h

theorem collapseAux_noDoubleUS (l : List Char) : ∀ b, noDoubleUS (collapseAux b l) := by
  induction l with
  | nil => intro b; simp [collapseAux, noDoubleUS]
  | cons c rest ih =>
      intro b
      by_cases h : isAlnumLower c = true
      · simp only [collapseAux, h, if_true]
        rcases hrec : collapseAux false rest with _ | ⟨x, xs⟩
        · simp [noDoubleUS]
        · refine (List.chain'_cons).mpr ⟨?_, hrec ▸ ih false⟩
          rintro ⟨hc, -⟩
          rw [hc] at h
          simp [isAlnumLower] at h
      · simp only [collapseAux, h, if_false, Bool.false_eq_true]
        cases b with
        | true => simp only [if_true]; exact ih true
        | false =>
            simp only [if_false, Bool.false_eq_true]
            rcases hrec : collapseAux true rest with _ | ⟨x, xs⟩
            · simp [noDoubleUS]
            · refine (List.chain'_cons).mpr ⟨?_, hrec ▸ ih true⟩
              rintro ⟨-, hx⟩
              have := collapseAux_true_head rest x xs hrec
              rw [hx] at this
              simp [isAlnumLower] at this

theorem dropWhile_isSuffix {α : Type} (p : α → Bool) :
    ∀ l : List α, l.dropWhile p <:+ l := by
  intro l
  induction l with
  | nil => exact List.nil_suffix
  | cons a t ih =>
      rw [List.dropWhile_cons]
      by_cases h : p a = true
      · simp only [h, if_true]
        exact ih.trans (List.suffix_cons a t)
      · simp only [h, if_false, Bool.false_eq_true]
        exact List.suffix_refl _

theorem head?_dropWhile {α : Type} (p : α → Bool) :
    ∀ (l : List α) (c : α), (l.dropWhile p).head? = some c → p c = false := by
  intro l
  induction l with
  | nil => intro c h; simp [List.dropWhile] at h
  | cons a t ih =>
      intro c h
      rw [List.dropWhile_cons] at h
      by_cases ha : p a = true
      · simp only [ha, if_true] at h; exact ih c h
      · simp only [ha, if_false, Bool.false_eq_true, List.head?_cons,
          Option.some.injEq] at h
        subst h
        exact Bool.eq_false_iff.mpr ha

theorem suffix_getLast? {α : Type} {l₁ l₂ : List α}
    (h : l₁ <:+ l₂) (hne : l₁ ≠ []) : l₁.getLast? = l₂.getLast? := by
  obtain ⟨t, rfl⟩ := h
  rw [List.getLast?_append]
  rcases hx : l₁.getLast? with _ | x
  · rw [List.getLast?_eq_none_iff] at hx
    exact absurd hx hne
  · rfl

theorem stripEnds_isInfix (p : Char → Bool) (l : List Char) :
    stripEnds p l <:+: l := by
  unfold stripEnds
  have h1 : l.dropWhile p <:+ l := dropWhile_isSuffix p l
  have h2 : (l.dropWhile p).reverse.dropWhile p <:+ (l.dropWhile p).reverse :=
    dropWhile_isSuffix p _
  have h3 : ((l.dropWhile p).reverse.dropWhile p).reverse <+: l.dropWhile p := by
    rw [← List.reverse_suffix]
    simpa using h2
  exact h3.isInfix.trans h1.isInfix

theorem stripEnds_head? (p : Char → Bool) (l : List Char) (c : Char)
    (h : (stripEnds p l).head? = some c) : p c = false := by
  unfold stripEnds at h
  rw [List.head?_reverse] at h
  have hw : (l.dropWhile p).reverse.dropWhile p ≠ [] := by
    intro hnil
    rw [hnil] at h
    simp at h
  rw [suffix_getLast? (dropWhile_isSuffix p _) hw, List.getLast?_reverse] at h
  exact head?_dropWhile p _ c h

theorem stripEnds_getLast? (p : Char → Bool) (l : List Char) (c : Char)
    (h : (stripEnds p l).getLast? = some c) : p c = false := by
  unfold stripEnds at h
  rw [List.getLast?_reverse] at h
  exact head?_dropWhile p _ c h

/-! ### `safe_name` is idempotent -/

theorem dropWhile_eq_self_of_head? {α : Type} (p : α → Bool) (l : List α)
    (h : ∀ c, l.head? = some c → p c = false) : l.dropWhile p = l := by
  cases l with
  | nil => rfl
  | cons a t =>
      rw [List.dropWhile_cons, h a rfl]
      simp

theorem dropWhile_eq_self_of_all {α : Type} (p : α → Bool) (l : List α)
    (h : ∀ c ∈ l, p c = false) : l.dropWhile p = l := by
  refine dropWhile_eq_self_of_head? p l (fun c hc => h c ?_)
  cases l with
  | nil => simp at hc
  | cons a t =>
      simp only [List.head?_cons, Option.some.injEq] at hc
      exact hc ▸ List.mem_cons_self a t

theorem isPySpace_toNat {c : Char} (h : isPySpace c = true) :
    c.toNat = 32 ∨ c.toNat = 9 ∨ c.toNat = 10 ∨ c.toNat = 13 ∨
    c.toNat = 11 ∨ c.toNat = 12 := by
  simp only [isPySpace, Bool.or_eq_true, decide_eq_true_eq] at h
  rcases h with ((((h | h) | h) | h) | h) | h <;> subst h <;> simp [Char.toNat]

theorem tokenOk_not_space {c : Char}
    (h : isAlnumLower c = true ∨ c = '_') : isPySpace c = false := by
  rcases h with h | h
  · cases hps : isPySpace c with
    | false => rfl
    | true =>
        exfalso
        simp only [isAlnumLower, Bool.or_eq_true, Bool.and_eq_true,
          decide_eq_true_eq] at h
        have := isPySpace_toNat hps
        omega
  · subst h; decide

theorem tokenOk_pyLower_fix {c : Char}
    (h : isAlnumLower c = true ∨ c = '_') : pyLower c = c := by
  rcases h with h | h
  · simp only [isAlnumLower, Bool.or_eq_true, Bool.and_eq_true,
      decide_eq_true_eq] at h
    unfold pyLower
    have : ¬(65 ≤ c.toNat ∧ c.toNat ≤ 90) := by omega
    simp only [Bool.and_eq_true, decide_eq_true_eq, this, if_false]
  · subst h; decide

theorem collapseAux_fix : ∀ t : List Char, tokenOk t → noDoubleUS t →
    collapseAux false t = t ∧
    (t.head? ≠ some '_' → collapseAux true t = t) := by
  intro t
  induction t with
  | nil => intro _ _; exact ⟨rfl, fun _ => rfl⟩
  | cons c rest ih =>
      intro hok hnd
      have hokr : tokenOk rest := fun x hx => hok x (List.mem_cons_of_mem c hx)
      have hndr : noDoubleUS rest := (List.chain'_cons'.mp hnd).2
      rcases hok c (List.mem_cons_self c rest) with hc | hc
      · have h1 : collapseAux false rest = rest := (ih hokr hndr).1
        constructor
        · simp only [collapseAux, hc, if_true, h1]
        · intro _; simp only [collapseAux, hc, if_true, h1]
      · subst hc
        have hcalnum : isAlnumLower '_' = false := by decide
        have hresthead : rest.head? ≠ some '_' := by
          intro hh
          cases rest with
          | nil => simp at hh
          | cons x xs =>
              simp only [List.head?_cons, Option.some.injEq] at hh
              subst hh
              exact (List.chain'_cons.mp hnd).1 ⟨rfl, rfl⟩
        have h2 : collapseAux true rest = rest := (ih hokr hndr).2 hresthead
        constructor
        · simp only [collapseAux, hcalnum, if_false, if_true, Bool.false_eq_true, h2]
        · intro hhead
          exact absurd rfl hhead

theorem collapseAux_allBad : ∀ l : List Char,
    (∀ c ∈ l, isAlnumLower c = false) →
    collapseAux true l = [] ∧
    collapseAux false l = if l.isEmpty then [] else ['_'] := by
  intro l
  induction l with
  | nil => intro _; exact ⟨rfl, rfl⟩
  | cons c rest ih =>
      intro hbad
      have hc : isAlnumLower c = false := hbad c (List.mem_cons_self c rest)
      have ihr := ih (fun x hx => hbad x (List.mem_cons_of_mem c hx))
      constructor
      · simp only [collapseAux, hc, if_true, if_false, Bool.false_eq_true]
        exact ihr.1
      · simp only [collapseAux, hc, if_true, if_false, Bool.false_eq_true,
          List.isEmpty_cons, ihr.1]

/-- The core list before the empty fallback is an infix of the collapse
output, hence made of `[a-z0-9_]` with no doubled underscore. -/
theorem safe_name_core_props (s : String) :
    tokenOk (safe_name_core s) ∧ noDoubleUS (safe_name_core s) ∧
    (safe_name_core s).head? ≠ some '_' ∧
    (safe_name_core s).getLast? ≠ some '_' := by
  unfold safe_name_core
  set l0 := ((s.data.dropWhile isPySpace).reverse.dropWhile isPySpace).reverse.map pyLower with hl0
  have hinf : stripEnds (fun c => c = '_') (collapseAux false l0) <:+: collapseAux false l0 :=
    stripEnds_isInfix _ _
  refine ⟨?_, ?_, ?_, ?_⟩
  · intro c hc
    exact collapseAux_tokenOk l0 false c (hinf.sublist.subset hc)
  · exact List.Chain'.infix (collapseAux_noDoubleUS l0 false) hinf
  · intro hh
    have := stripEnds_head? (fun c => c = '_') (collapseAux false l0) '_' hh
    simp at this
  · intro hh
    have := stripEnds_getLast? (fun c => c = '_') (collapseAux false l0) '_' hh
    simp at this

/-- `safe_name` output characters are `[a-z0-9]` or `'_'`, with no
underscore at either end, never the empty string. -/
theorem safe_name_props (s : String) :
    tokenOk (safe_name s).data ∧ noDoubleUS (safe_name s).data ∧
    (safe_name s).data.head? ≠ some '_' ∧
    (safe_name s).data.getLast? ≠ some '_' ∧
    (safe_name s).data ≠ [] := by
  obtain ⟨p1, p2, p3, p4⟩ := safe_name_core_props s
  unfold safe_name
  by_cases hemp : (safe_name_core s).isEmpty
  · rw [if_pos hemp]
    have hitem : ("item" : String).data = ['i', 't', 'e', 'm'] := rfl
    refine ⟨?_, ?_, ?_, ?_, ?_⟩
    · unfold tokenOk; decide
    · rw [noDoubleUS, hitem]
      simp [List.chain'_cons]
    · decide
    · decide
    · decide
  · rw [if_neg hemp]
    have hdata : (String.mk (safe_name_core s)).data = safe_name_core s := rfl
    rw [hdata]
    refine ⟨p1, p2, p3, p4, ?_⟩
    intro hnil
    rw [hnil] at hemp
    simp at hemp

theorem safe_name_core_fix (t : List Char)
    (h1 : tokenOk t) (h2 : noDoubleUS t)
    (h3 : t.head? ≠ some '_') (h4 : t.getLast? ≠ some '_') :
    safe_name_core (String.mk t) = t := by
  unfold safe_name_core
  have hdata : (String.mk t).data = t := rfl
  rw [hdata]
  have hnospace : ∀ c ∈ t, isPySpace c = false := fun c hc => tokenOk_not_space (h1 c hc)
  have hd1 : t.dropWhile isPySpace = t := dropWhile_eq_self_of_all _ _ hnospace
  have hd2 : t.reverse.dropWhile isPySpace = t.reverse :=
    dropWhile_eq_self_of_all _ _ (fun c hc => hnospace c (List.mem_reverse.mp hc))
  rw [hd1, hd2, List.reverse_reverse]
  have hmap : t.map pyLower = t := by
    have h := List.map_congr_left (l := t) (f := pyLower) (g := id)
      (fun c hc => tokenOk_pyLower_fix (h1 c hc))
    simpa using h
  rw [hmap, (collapseAux_fix t h1 h2).1]
  have hs1 : t.dropWhile (fun c => decide (c = '_')) = t := by
    refine dropWhile_eq_self_of_head? _ _ (fun c hc => ?_)
    refine decide_eq_false (fun hcu => h3 ?_)
    rw [hc, hcu]
  have hs2 : t.reverse.dropWhile (fun c => decide (c = '_')) = t.reverse := by
    refine dropWhile_eq_self_of_head? _ _ (fun c hc => ?_)
    rw [List.head?_reverse] at hc
    refine decide_eq_false (fun hcu => h4 ?_)
    rw [hc, hcu]
  rw [stripEnds, hs1, hs2, List.reverse_reverse]

theorem safe_name_fixpoint (t : List Char)
    (h1 : tokenOk t) (h2 : noDoubleUS t)
    (h3 : t.head? ≠ some '_') (h4 : t.getLast? ≠ some '_')
    (h5 : t ≠ []) :
    safe_name (String.mk t) = String.mk t := by
  unfold safe_name
  rw [safe_name_core_fix t h1 h2 h3 h4]
  have hfalse : t.isEmpty = false := by
    cases t with
    | nil => exact absurd rfl h5
    | cons a l => rfl
  rw [hfalse]
  simp

/-- `String.mk` of a string's character list gives the string back. -/
theorem mk_data (x : String) : String.mk x.data = x := by
  cases x
  rfl

theorem safe_name_idem (s : String) : safe_name (safe_name s) = safe_name s := by
  obtain ⟨h1, h2, h3, h4, h5⟩ := safe_name_props s
  have := safe_name_fixpoint (safe_name s).data h1 h2 h3 h4 h5
  rwa [mk_data] at this

theorem safe_name_allBad (s : String)
    (h : ∀ c ∈ s.data, isAlnumLower (pyLower c) = false) : safe_name s = "item" := by
  have hcore : safe_name_core s = [] := by
    unfold safe_name_core
    set l0 := ((s.data.dropWhile isPySpace).reverse.dropWhile isPySpace).reverse with hl0
    have hsub : ∀ c ∈ l0, c ∈ s.data := by
      intro c hc
      rw [hl0, List.mem_reverse] at hc
      have h2 := (List.dropWhile_sublist isPySpace).subset hc
      rw [List.mem_reverse] at h2
      exact (List.dropWhile_sublist isPySpace).subset h2
    have hbad : ∀ c ∈ l0.map pyLower, isAlnumLower c = false := by
      intro c hc
      rw [List.mem_map] at hc
      obtain ⟨a, ha, rfl⟩ := hc
      exact h a (hsub a ha)
    have hcol := (collapseAux_allBad (l0.map pyLower) hbad).2
    cases hce : (l0.map pyLower).isEmpty with
    | true =>
        rw [hce, if_pos rfl] at hcol
        rw [hcol]
        decide
    | false =>
        rw [hce] at hcol
        simp only [Bool.false_eq_true, if_false] at hcol
        rw [hcol]
        decide
  unfold safe_name
  rw [hcore]
  rfl

/-! ## Claim theorems for C9 and C2 -/

/-- C9: `safe_name` lowercases, collapses every run of non-alphanumeric
characters to a single underscore, trims leading and trailing underscores,
and returns the fixed placeholder `"item"` when the result would be empty;
`safe_name "Contrato Faena #1/2025"` contains no `'/'`, space, or `'#'`;
and `safe_name` is idempotent. -/
theorem C9_safe_name_spec :
    (safe_name "Contrato Faena #1/2025" = "contrato_faena_1_2025" ∧
      ∀ c ∈ (safe_name "Contrato Faena #1/2025").data, c ≠ '/' ∧ c ≠ ' ' ∧ c ≠ '#') ∧
    (∀ s : String, safe_name (safe_name s) = safe_name s) ∧
    (∀ s : String, safe_name s ≠ "" ∧
      (∀ c ∈ (safe_name s).data, isAlnumLower c = true ∨ c = '_') ∧
      (safe_name s).data.head? ≠ some '_' ∧
      (safe_name s).data.getLast? ≠ some '_') ∧
    (∀ s : String, (∀ c ∈ s.data, isAlnumLower (pyLower c) = false) →
      safe_name s = "item") := by
  refine ⟨⟨?_, ?_⟩, safe_name_idem, fun s => ?_, safe_name_allBad⟩
  · decide
  · decide
  · obtain ⟨h1, h2, h3, h4, h5⟩ := safe_name_props s
    refine ⟨?_, h1, h3, h4⟩
    intro hs
    apply h5
    rw [hs]

/-- C9 witness: the nested hypotheses instantiated at concrete inputs. -/
theorem C9_safe_name_spec_witness :
    safe_name "###" = "item" ∧ safe_name (safe_name "a b") = safe_name "a b" :=
  ⟨C9_safe_name_spec.2.2.2 "###" (by decide), C9_safe_name_spec.2.1 "a b"⟩

/-- C2: `semaforo` returns CRITICO iff the site has zero workers or
coverage below 70; OK iff it has workers, no missing documents and
coverage at least 100; PENDIENTE otherwise when coverage is at least 70;
and zero workers always wins over a vacuous 100% coverage. -/
theorem C2_semaforo_spec (tr : Nat) (pct : ℚ) (falt : Int) :
    (semaforo tr pct falt = "CRITICO" ↔ (tr = 0 ∨ pct < 70)) ∧
    (semaforo tr pct falt = "OK" ↔ (tr ≠ 0 ∧ falt = 0 ∧ pct ≥ 100)) ∧
    (semaforo tr pct falt = "PENDIENTE" ↔
      (tr ≠ 0 ∧ pct ≥ 70 ∧ ¬(falt = 0 ∧ pct ≥ 100))) ∧
    semaforo 0 100 0 = "CRITICO" := by
  unfold semaforo
  by_cases h0 : tr = 0
  · rw [if_pos h0]
    refine ⟨?_, ?_, ?_, ?_⟩
    · simp [h0]
    · constructor
      · intro h; exact absurd h (by decide)
      · rintro ⟨h, -⟩; exact absurd h0 h
    · constructor
      · intro h; exact absurd h (by decide)
      · rintro ⟨h, -⟩; exact absurd h0 h
    · norm_num
  · rw [if_neg h0]
    by_cases hok : falt = 0 ∧ pct ≥ 100
    · rw [if_pos hok]
      have h70 : ¬ pct < 70 := by linarith [hok.2]
      refine ⟨?_, ?_, ?_, ?_⟩
      · constructor
        · intro h; exact absurd h (by decide)
        · rintro (h | h)
          · exact absurd h h0
          · exact absurd h h70
      · simp [h0, hok]
      · constructor
        · intro h; exact absurd h (by decide)
        · rintro ⟨-, -, h⟩; exact absurd hok h
      · norm_num
    · rw [if_neg hok]
      by_cases h70 : pct ≥ 70
      · rw [if_pos h70]
        refine ⟨?_, ?_, ?_, ?_⟩
        · constructor
          · intro h; exact absurd h (by decide)
          · rintro (h | h)
            · exact absurd h h0
            · linarith
        · constructor
          · intro h; exact absurd h (by decide)
          · rintro ⟨-, h⟩; exact absurd h hok
        · simp [h0, h70, hok]
        · simp
      · rw [if_neg h70]
        refine ⟨?_, ?_, ?_, ?_⟩
        · simp only [true_iff]
          right
          linarith [lt_of_not_ge h70]
        · constructor
          · intro h; exact absurd h (by decide)
          · rintro ⟨-, -, h⟩; linarith
        · constructor
          · intro h; exact absurd h (by decide)
          · rintro ⟨-, h, -⟩; exact absurd h h70
        · norm_num

/-- C2 witness: the zero-workers row with vacuous full coverage is CRITICO. -/
theorem C2_semaforo_spec_witness : semaforo 0 100 0 = "CRITICO" :=
  (C2_semaforo_spec 0 100 0).2.2.2

/-! ## Data model

One record type per SQLite table of `init_db` (source lines 248-413),
keeping only the columns the verified core reads.  Primary keys are `id`
fields; `AUTOINCREMENT` uniqueness is taken as a hypothesis where a proof
needs it. -/

structure Mandante where
  id : Nat
  nombre : String
deriving DecidableEq

structure ContratoFaena where
  id : Nat
  mandante_id : Nat
  nombre : String
  file_path : Option String
deriving DecidableEq

structure Faena where
  id : Nat
  mandante_id : Nat
  contrato_faena_id : Option Nat
  nombre : String
  ubicacion : String
  fecha_inicio : String
  fecha_termino : Option String
  estado : String
deriving DecidableEq

structure FaenaAnexo where
  id : Nat
  faena_id : Nat
  file_path : String
deriving DecidableEq

structure Trabajador where
  id : Nat
  rut : String
  nombres : String
  apellidos : String
deriving DecidableEq

structure Asignacion where
  faena_id : Nat
  trabajador_id : Nat
  estado : String
deriving DecidableEq

structure TrabajadorDocumento where
  id : Nat
  trabajador_id : Nat
  doc_tipo : String
  file_path : String
deriving DecidableEq

structure EmpresaDocumento where
  id : Nat
  doc_tipo : String
  file_path : String
deriving DecidableEq

structure FaenaEmpresaDocumento where
  id : Nat
  faena_id : Nat
  doc_tipo : String
  file_path : String
deriving DecidableEq

structure Store where
  mandantes : List Mandante
  contratos_faena : List ContratoFaena
  faenas : List Faena
  faena_anexos : List FaenaAnexo
  trabajadores : List Trabajador
  asignaciones : List Asignacion
  trabajador_documentos : List TrabajadorDocumento
  empresa_documentos : List EmpresaDocumento
  faena_empresa_documentos : List FaenaEmpresaDocumento
deriving DecidableEq

/-! ## SQL `ORDER BY` as insertion sort -/

def insertSorted {α : Type} (le : α → α → Bool) (a : α) : List α → List α
  | [] => [a]
  | b :: r => if le a b then a :: b :: r else b :: insertSorted le a r

def sortByKey {α : Type} (le : α → α → Bool) : List α → List α
  | [] => []
  | a :: r => insertSorted le a (sortByKey le r)

theorem mem_insertSorted {α : Type} (le : α → α → Bool) (a x : α) :
    ∀ l : List α, x ∈ insertSorted le a l ↔ x = a ∨ x ∈ l := by
  intro l
  induction l with
  | nil => simp [insertSorted]
  | cons b r ih =>
      rw [insertSorted]
      by_cases h : le a b = true
      · simp [h]
      · simp only [h, if_false, Bool.false_eq_true, List.mem_cons, ih]
        tauto

theorem mem_sortByKey {α : Type} (le : α → α → Bool) (x : α) :
    ∀ l : List α, x ∈ sortByKey le l ↔ x ∈ l := by
  intro l
  induction l with
  | nil => simp [sortByKey]
  | cons a r ih =>
      rw [sortByKey, mem_insertSorted]
      simp [ih]

theorem sortByKey_eq_nil {α : Type} (le : α → α → Bool) :
    ∀ l : List α, sortByKey le l = [] ↔ l = [] := by
  intro l
  cases l with
  | nil => simp [sortByKey]
  | cons a r =>
      simp only [sortByKey]
      constructor
      · intro h
        have : a ∈ insertSorted le a (sortByKey le r) := (mem_insertSorted le a a _).mpr (Or.inl rfl)
        rw [h] at this
        simp at this
      · intro h
        exact absurd h (List.cons_ne_nil a r)

/-- `ORDER BY t.apellidos, t.nombres` (SQLite compares TEXT bytewise). -/
def trabLE (a b : Trabajador) : Bool :=
  decide (a.apellidos < b.apellidos) ||
    (decide (a.apellidos = b.apellidos) && decide (a.nombres ≤ b.nombres))

/-! ## ComplianceEngine -/

/-- The join of `pendientes_obligatorios` / the worker loop of the
exporters (source lines 450-456, 662-668):
`SELECT t.* FROM asignaciones a JOIN trabajadores t ON t.id=a.trabajador_id
WHERE a.faena_id=? ORDER BY t.apellidos, t.nombres`.
`find?` resolves the join through the `trabajadores` primary key. -/
def assignedTrabajadores (s : Store) (fid : Nat) : List Trabajador :=
  sortByKey trabLE
    ((s.asignaciones.filter (fun a => a.faena_id == fid)).filterMap
      (fun a => s.trabajadores.find? (fun t => t.id == a.trabajador_id)))

/-- Document types uploaded for one worker (`trabajador_documentos`). -/
def docTypesOf (s : Store) (tid : Nat) : List String :=
  (s.trabajador_documentos.filter (fun d => d.trabajador_id == tid)).map
    (fun d => d.doc_tipo)

def trabLabel (t : Trabajador) : String :=
  t.apellidos ++ " " ++ t.nombres ++ " (" ++ t.rut ++ ")"

/-- Python `dict` insertion: replace in place if the key exists, else
append. -/
def dictInsert {β : Type} (k : String) (v : β) :
    List (String × β) → List (String × β)
  | [] => [(k, v)]
  | (k', v') :: rest =>
      if k' = k then (k, v) :: rest else (k', v') :: dictInsert k v rest

/-- `pendientes_obligatorios` (source lines 449-478): per assigned worker
(any assignment status), the required types not yet uploaded, in catalog
order. -/
def pendientes_obligatorios (s : Store) (fid : Nat) : List (String × List String) :=
  (assignedTrabajadores s fid).foldl
    (fun out t =>
      dictInsert (trabLabel t)
        (DOC_OBLIGATORIOS.filter (fun d => !((docTypesOf s t.id).contains d))) out)
    []

/-- `pendientes_empresa_faena` (source lines 481-486). -/
def pendientes_empresa_faena (s : Store) (fid : Nat) : List String :=
  DOC_EMPRESA_REQUERIDOS.filter (fun d =>
    !((s.faena_empresa_documentos.filter (fun e => e.faena_id == fid)).map
        (fun e => e.doc_tipo)).contains d)

/-! ## `faena_progress_table` (source lines 489-535) -/

/-- Round to the nearest integer, ties to even — the rounding used by
pandas `.round`. -/
def roundHalfEven (q : ℚ) : Int :=
  if q - ⌊q⌋ < 1/2 then ⌊q⌋
  else if 1/2 < q - ⌊q⌋ then ⌊q⌋ + 1
  else if ⌊q⌋ % 2 = 0 then ⌊q⌋ else ⌊q⌋ + 1

/-- pandas `.round(1)`: one decimal place. -/
def round1 (q : ℚ) : ℚ := (roundHalfEven (q * 10) : ℚ) / 10

/-- The faena list of the progress table (source lines 491-497):
`SELECT f.*, m.nombre FROM faenas f JOIN mandantes m ON m.id=f.mandante_id
ORDER BY f.id DESC`. -/
def faenasJoined (s : Store) : List (Faena × String) :=
  sortByKey (fun a b => decide (b.1.id ≤ a.1.id))
    (s.faenas.filterMap (fun f =>
      (s.mandantes.find? (fun m => m.id == f.mandante_id)).map
        (fun m => (f, m.nombre))))

/-- Distinct values keeping first occurrences (`nunique` / `GROUP BY`). -/
def dedupKeepFirst (seen : List Nat) : List Nat → List Nat
  | [] => []
  | a :: r =>
      if seen.contains a then dedupKeepFirst seen r
      else a :: dedupKeepFirst (a :: seen) r

/-- Distinct workers assigned to a faena: the `GROUP BY a.faena_id,
a.trabajador_id` rows of the stats query followed by the
`nunique` aggregation (source lines 509-525). -/
def faenaTrabIds (s : Store) (fid : Nat) : List Nat :=
  dedupKeepFirst []
    ((s.asignaciones.filter (fun a => a.faena_id == fid)).map
      (fun a => a.trabajador_id))

/-- `COUNT(DISTINCT CASE WHEN d.doc_tipo IN (required) THEN d.doc_tipo END)`
for one worker: the number of distinct required types present.  The
catalog is duplicate-free, so filtering it by presence counts exactly the
distinct required types the worker holds. -/
def reqDocsPresent (s : Store) (tid : Nat) : Nat :=
  (DOC_OBLIGATORIOS.filter (fun d => (docTypesOf s tid).contains d)).length

structure ProgressRow where
  faena_id : Nat
  faena : String
  estado : String
  fecha_inicio : String
  fecha_termino : Option String
  mandante : String
  trabajadores : Nat
  trab_ok : Nat
  cobertura_docs_pct : ℚ
  faltantes_total : Int
deriving DecidableEq

/-- One row of the progress table.  The source computes the aggregation
globally and merges (`fillna(0)` for faenas without assignments, the
early-return branch when `asignaciones` is empty as a whole); per faena
both collapse to the zero metrics whenever the faena has no assignment
rows, which is the `trabajadores = 0` branch here. -/
def progressRow (s : Store) (f : Faena) (mandanteNombre : String) : ProgressRow :=
  let ids := faenaTrabIds s f.id
  let sumPresent := (ids.map (reqDocsPresent s)).sum
  { faena_id := f.id
    faena := f.nombre
    estado := f.estado
    fecha_inicio := f.fecha_inicio
    fecha_termino := f.fecha_termino
    mandante := mandanteNombre
    trabajadores := ids.length
    trab_ok := (ids.filter (fun tid => decide (REQ_DOCS_N ≤ reqDocsPresent s tid))).length
    cobertura_docs_pct :=
      if ids.length = 0 then 0
      else round1 ((sumPresent : ℚ) / ((ids.length : ℚ) * (REQ_DOCS_N : ℚ)) * 100)
    faltantes_total := (ids.length * REQ_DOCS_N : Int) - (sumPresent : Int) }

def faena_progress_table (s : Store) : List ProgressRow :=
  (faenasJoined s).map (fun p => progressRow s p.1 p.2)

/-! ## C1: site-progress arithmetic -/

theorem reqDocsPresent_le (s : Store) (tid : Nat) :
    reqDocsPresent s tid ≤ REQ_DOCS_N :=
  List.length_filter_le _ _

/-- C1 (amended): for every site row, the per-worker `min` clamp in the
claimed formula is vacuous, coverage is the claimed ratio rounded to one
decimal (pandas `.round(1)`), coverage is 0 with no workers, a worker is
counted in `trab_ok` iff the present-required count reaches the catalog
size, and `faltantes_total` is `workers × REQ_DOCS_N − Σ present`,
never negative. -/
theorem C1_progress_spec (s : Store) (f : Faena) (mn : String) :
    (faena_progress_table s = (faenasJoined s).map (fun p => progressRow s p.1 p.2)) ∧
    (∀ tid, reqDocsPresent s tid ≤ REQ_DOCS_N) ∧
    ((faenaTrabIds s f.id).map (reqDocsPresent s)).sum
        = ((faenaTrabIds s f.id).map
            (fun tid => min (reqDocsPresent s tid) REQ_DOCS_N)).sum ∧
    ((progressRow s f mn).trabajadores = 0 →
      (progressRow s f mn).cobertura_docs_pct = 0) ∧
    ((progressRow s f mn).trabajadores ≠ 0 →
      (progressRow s f mn).cobertura_docs_pct =
        round1 ((((faenaTrabIds s f.id).map
            (fun tid => min (reqDocsPresent s tid) REQ_DOCS_N)).sum : ℚ)
          / (((progressRow s f mn).trabajadores : ℚ) * (REQ_DOCS_N : ℚ)) * 100)) ∧
    ((progressRow s f mn).trab_ok =
      (faenaTrabIds s f.id).countP (fun tid => decide (REQ_DOCS_N ≤ reqDocsPresent s tid))) ∧
    ((progressRow s f mn).faltantes_total =
      ((progressRow s f mn).trabajadores * REQ_DOCS_N : Int)
        - (((faenaTrabIds s f.id).map (reqDocsPresent s)).sum : Int)) ∧
    0 ≤ (progressRow s f mn).faltantes_total := by
  have hle : ∀ tid, reqDocsPresent s tid ≤ REQ_DOCS_N := reqDocsPresent_le s
  have hmin : ((faenaTrabIds s f.id).map (reqDocsPresent s)).sum
      = ((faenaTrabIds s f.id).map
          (fun tid => min (reqDocsPresent s tid) REQ_DOCS_N)).sum := by
    congr 1
    exact List.map_congr_left (fun tid _ => (min_eq_left (hle tid)).symm)
  have hsum : ((faenaTrabIds s f.id).map (reqDocsPresent s)).sum
      ≤ (faenaTrabIds s f.id).length * REQ_DOCS_N := by
    have h := List.sum_le_card_nsmul ((faenaTrabIds s f.id).map (reqDocsPresent s))
      REQ_DOCS_N ?_
    · simpa [smul_eq_mul] using h
    · intro x hx
      rw [List.mem_map] at hx
      obtain ⟨tid, -, rfl⟩ := hx
      exact hle tid
  refine ⟨rfl, hle, hmin, ?_, ?_, ?_, ?_, ?_⟩
  · intro h0
    simp only [progressRow] at h0 ⊢
    rw [if_pos h0]
  · intro h0
    simp only [progressRow] at h0 ⊢
    rw [if_neg h0, ← hmin]
  · simp only [progressRow]
    exact (List.countP_eq_length_filter _ _).symm
  · rfl
  · simp only [progressRow]
    omega

def egFaena1 : Faena :=
  { id := 1, mandante_id := 1, contrato_faena_id := none,
    nombre := "F", ubicacion := "", fecha_inicio := "2025-01-10",
    fecha_termino := none, estado := "ACTIVA" }

/-- A one-faena, one-worker store in which the worker holds exactly one of
the seven required document types. -/
def egStore1 : Store :=
  { mandantes := [{ id := 1, nombre := "M" }]
    contratos_faena := []
    faenas := [egFaena1]
    faena_anexos := []
    trabajadores := [{ id := 1, rut := "1-9", nombres := "Ana", apellidos := "Paz" }]
    asignaciones := [{ faena_id := 1, trabajador_id := 1, estado := "ACTIVA" }]
    trabajador_documentos := [{ id := 1, trabajador_id := 1,
                                doc_tipo := "REGISTRO_EPP", file_path := "u/d1" }]
    empresa_documentos := []
    faena_empresa_documentos := [] }

theorem round1_100div7 : round1 (100 / 7 : ℚ) = 143 / 10 := by
  unfold round1 roundHalfEven
  have h10 : (100 / 7 : ℚ) * 10 = 1000 / 7 := by norm_num
  rw [h10]
  have hfl : ⌊(1000 / 7 : ℚ)⌋ = 142 := by
    rw [Int.floor_eq_iff]
    constructor <;> norm_num
  rw [hfl]
  rw [if_neg (by norm_num), if_pos (by norm_num)]
  norm_num

/-- C1 counterexample: with one assigned worker holding one of the seven
required types, the published coverage is `14.3` (one-decimal rounding),
not the exact `(Σ min(present, total)) / (workers × total) × 100 = 100/7`
the claim states. -/
theorem C1_cobertura_cex :
    ∃ r ∈ faena_progress_table egStore1,
      r.trabajadores = 1 ∧
      ((faenaTrabIds egStore1 r.faena_id).map
        (fun tid => min (reqDocsPresent egStore1 tid) REQ_DOCS_N)).sum = 1 ∧
      r.cobertura_docs_pct = 143 / 10 ∧
      r.cobertura_docs_pct ≠
        (((1 : ℚ)) / (((1 : ℚ)) * (REQ_DOCS_N : ℚ))) * 100 := by
  have htab : faena_progress_table egStore1 = [progressRow egStore1 egFaena1 "M"] := rfl
  have hcob : (progressRow egStore1 egFaena1 "M").cobertura_docs_pct
      = round1 ((((1 : ℕ) : ℚ)) / (((1 : ℕ) : ℚ) * ((REQ_DOCS_N : ℕ) : ℚ)) * 100) := rfl
  have harg : ((((1 : ℕ) : ℚ)) / (((1 : ℕ) : ℚ) * ((REQ_DOCS_N : ℕ) : ℚ)) * 100)
      = (100 / 7 : ℚ) := by
    norm_num [REQ_DOCS_N, DOC_OBLIGATORIOS]
  rw [harg] at hcob
  refine ⟨progressRow egStore1 egFaena1 "M", by rw [htab]; exact List.mem_singleton.mpr rfl,
    rfl, rfl, ?_, ?_⟩
  · rw [hcob, round1_100div7]
  · rw [hcob, round1_100div7]
    have h7 : ((REQ_DOCS_N : ℕ) : ℚ) = 7 := by norm_num [REQ_DOCS_N, DOC_OBLIGATORIOS]
    rw [h7]
    norm_num

/-! ## C3: `pendientes_obligatorios` -/

theorem dictInsert_mem {β : Type} (k : String) (v : β) :
    ∀ d : List (String × β), ∀ e ∈ dictInsert k v d, e = (k, v) ∨ e ∈ d := by
  intro d
  induction d with
  | nil => intro e he; simp [dictInsert] at he; simp [he]
  | cons p rest ih =>
      intro e he
      rw [show dictInsert k v (p :: rest)
          = if p.1 = k then (k, v) :: rest else p :: dictInsert k v rest from rfl] at he
      by_cases h : p.1 = k
      · rw [if_pos h] at he
        rcases List.mem_cons.mp he with h1 | h1
        · exact Or.inl h1
        · exact Or.inr (List.mem_cons_of_mem p h1)
      · rw [if_neg h] at he
        rcases List.mem_cons.mp he with h1 | h1
        · exact Or.inr (h1 ▸ List.mem_cons_self p rest)
        · rcases ih e h1 with h2 | h2
          · exact Or.inl h2
          · exact Or.inr (List.mem_cons_of_mem p h2)

theorem dictInsert_self_key {β : Type} (k : String) (v : β) :
    ∀ d : List (String × β), ∃ w, (k, w) ∈ dictInsert k v d := by
  intro d
  induction d with
  | nil => exact ⟨v, by simp [dictInsert]⟩
  | cons p rest ih =>
      rw [show dictInsert k v (p :: rest)
          = if p.1 = k then (k, v) :: rest else p :: dictInsert k v rest from rfl]
      by_cases h : p.1 = k
      · rw [if_pos h]; exact ⟨v, List.mem_cons_self _ _⟩
      · rw [if_neg h]
        obtain ⟨w, hw⟩ := ih
        exact ⟨w, List.mem_cons_of_mem p hw⟩

theorem dictInsert_keeps_key {β : Type} (k : String) (v : β) (k' : String) :
    ∀ d : List (String × β), (∃ w, (k', w) ∈ d) → ∃ w, (k', w) ∈ dictInsert k v d := by
  intro d
  induction d with
  | nil => rintro ⟨w, hw⟩; simp at hw
  | cons p rest ih =>
      rintro ⟨w, hw⟩
      rw [show dictInsert k v (p :: rest)
          = if p.1 = k then (k, v) :: rest else p :: dictInsert k v rest from rfl]
      by_cases h : p.1 = k
      · rw [if_pos h]
        rcases List.mem_cons.mp hw with h1 | h1
        · by_cases hk : k' = k
          · exact ⟨v, hk ▸ List.mem_cons_self _ _⟩
          · exfalso
            have : p.1 = k' := by rw [← h1]
            exact hk (this ▸ h)
        · exact ⟨w, List.mem_cons_of_mem _ h1⟩
      · rw [if_neg h]
        rcases List.mem_cons.mp hw with h1 | h1
        · exact ⟨w, h1 ▸ List.mem_cons_self p _⟩
        · obtain ⟨w', hw'⟩ := ih ⟨w, h1⟩
          exact ⟨w', List.mem_cons_of_mem p hw'⟩

theorem dictInsert_ne_nil {β : Type} (k : String) (v : β) :
    ∀ d : List (String × β), dictInsert k v d ≠ [] := by
  intro d
  cases d with
  | nil => simp [dictInsert]
  | cons p rest =>
      rw [show dictInsert k v (p :: rest)
          = if p.1 = k then (k, v) :: rest else p :: dictInsert k v rest from rfl]
      by_cases h : p.1 = k
      · rw [if_pos h]; exact List.cons_ne_nil _ _
      · rw [if_neg h]; exact List.cons_ne_nil _ _

/-- Every entry of the dict fold is one of the inserted pairs. -/
theorem foldl_dictInsert_mem {β : Type} (f : Trabajador → String) (g : Trabajador → β) :
    ∀ (L : List Trabajador) (acc : List (String × β)) (e : String × β),
      e ∈ L.foldl (fun out t => dictInsert (f t) (g t) out) acc →
      e ∈ acc ∨ ∃ t ∈ L, e = (f t, g t) := by
  intro L
  induction L with
  | nil => intro acc e he; exact Or.inl he
  | cons t r ih =>
      intro acc e he
      rw [List.foldl_cons] at he
      rcases ih (dictInsert (f t) (g t) acc) e he with h1 | h1
      · rcases dictInsert_mem (f t) (g t) acc e h1 with h2 | h2
        · exact Or.inr ⟨t, List.mem_cons_self t r, h2⟩
        · exact Or.inl h2
      · obtain ⟨t', ht', he'⟩ := h1
        exact Or.inr ⟨t', List.mem_cons_of_mem t ht', he'⟩

/-- The dict fold preserves present keys. -/
theorem foldl_dictInsert_keeps {β : Type} (f : Trabajador → String) (g : Trabajador → β)
    (k : String) :
    ∀ (L : List Trabajador) (acc : List (String × β)),
      (∃ w, (k, w) ∈ acc) →
      ∃ w, (k, w) ∈ L.foldl (fun out t => dictInsert (f t) (g t) out) acc := by
  intro L
  induction L with
  | nil => intro acc h; exact h
  | cons t r ih =>
      intro acc h
      rw [List.foldl_cons]
      exact ih _ (dictInsert_keeps_key (f t) (g t) k acc h)

/-- Every inserted key is a key of the dict fold result. -/
theorem foldl_dictInsert_key {β : Type} (f : Trabajador → String) (g : Trabajador → β) :
    ∀ (L : List Trabajador) (acc : List (String × β)) (t : Trabajador), t ∈ L →
      ∃ w, (f t, w) ∈ L.foldl (fun out t => dictInsert (f t) (g t) out) acc := by
  intro L
  induction L with
  | nil => intro acc t ht; simp at ht
  | cons t0 r ih =>
      intro acc t ht
      rw [List.foldl_cons]
      rcases List.mem_cons.mp ht with h1 | h1
      · subst h1
        exact foldl_dictInsert_keeps f g (f t) r _ (dictInsert_self_key (f t) (g t) acc)
      · exact ih _ t h1

theorem foldl_dictInsert_eq_nil {β : Type} (f : Trabajador → String) (g : Trabajador → β) :
    ∀ (L : List Trabajador) (acc : List (String × β)),
      L.foldl (fun out t => dictInsert (f t) (g t) out) acc = [] ↔
        acc = [] ∧ L = [] := by
  intro L
  induction L with
  | nil => intro acc; simp
  | cons t r ih =>
      intro acc
      rw [List.foldl_cons, ih]
      simp only [List.cons_ne_nil, and_false, iff_false]
      rintro ⟨h1, -⟩
      exact dictInsert_ne_nil (f t) (g t) acc h1

/-- C3: `pendientes_obligatorios` considers every worker with an
assignment to the site regardless of the assignment status, maps each
worker to the required catalog minus the types present (in catalog
order), returns the empty mapping exactly when no worker is assigned,
and is a pure read of the store. -/
theorem C3_pendientes_spec (s : Store) (fid : Nat)
    (hfk : ∀ a ∈ s.asignaciones, ∃ t ∈ s.trabajadores, t.id = a.trabajador_id) :
    (∀ g : Asignacion → String,
      pendientes_obligatorios
        { s with asignaciones :=
            s.asignaciones.map (fun a => { a with estado := g a }) } fid
        = pendientes_obligatorios s fid) ∧
    (∀ a ∈ s.asignaciones, a.faena_id = fid →
      ∃ t ∈ s.trabajadores, t.id = a.trabajador_id ∧
        ∃ v, (trabLabel t, v) ∈ pendientes_obligatorios s fid) ∧
    (∀ e ∈ pendientes_obligatorios s fid,
      ∃ t ∈ assignedTrabajadores s fid,
        e.1 = trabLabel t ∧
        e.2 = DOC_OBLIGATORIOS.filter (fun d => !((docTypesOf s t.id).contains d)) ∧
        e.2.Sublist DOC_OBLIGATORIOS ∧
        (∀ d, d ∈ e.2 ↔ d ∈ DOC_OBLIGATORIOS ∧ d ∉ docTypesOf s t.id)) ∧
    (pendientes_obligatorios s fid = [] ↔
      ∀ a ∈ s.asignaciones, a.faena_id ≠ fid) := by
  refine ⟨?_, ?_, ?_, ?_⟩
  · intro g
    unfold pendientes_obligatorios assignedTrabajadores
    rw [List.filter_map, List.filterMap_map]
    rfl
  · intro a ha hafid
    have hex : ∃ t ∈ s.trabajadores, (fun t : Trabajador => t.id == a.trabajador_id) t := by
      obtain ⟨t, ht, hid⟩ := hfk a ha
      exact ⟨t, ht, by simp [hid]⟩
    obtain ⟨t, hfind⟩ := Option.isSome_iff_exists.mp (List.find?_isSome.mpr hex)
    have htmem : t ∈ s.trabajadores := List.mem_of_find?_eq_some hfind
    have htid : t.id = a.trabajador_id := by
      have := List.find?_some hfind
      simpa using this
    refine ⟨t, htmem, htid, ?_⟩
    have hassigned : t ∈ assignedTrabajadores s fid := by
      unfold assignedTrabajadores
      rw [mem_sortByKey]
      rw [List.mem_filterMap]
      refine ⟨a, ?_, hfind⟩
      rw [List.mem_filter]
      exact ⟨ha, by simp [hafid]⟩
    exact foldl_dictInsert_key _ _ _ [] t hassigned
  · intro e he
    unfold pendientes_obligatorios at he
    rcases foldl_dictInsert_mem _ _ (assignedTrabajadores s fid) [] e he with h1 | h1
    · simp at h1
    · obtain ⟨t, ht, rfl⟩ := h1
      refine ⟨t, ht, rfl, rfl, List.filter_sublist _, ?_⟩
      intro d
      rw [List.mem_filter]
      have hc : ((docTypesOf s t.id).contains d) = true ↔ d ∈ docTypesOf s t.id :=
        List.elem_iff
      constructor
      · rintro ⟨h1, h2⟩
        refine ⟨h1, fun hmem => ?_⟩
        rw [← hc] at hmem
        rw [hmem] at h2
        exact absurd h2 (by decide)
      · rintro ⟨h1, h2⟩
        refine ⟨h1, ?_⟩
        cases hcv : (docTypesOf s t.id).contains d with
        | false => rfl
        | true => exact absurd (hc.mp hcv) h2
  · unfold pendientes_obligatorios
    rw [foldl_dictInsert_eq_nil]
    simp only [true_and]
    unfold assignedTrabajadores
    rw [sortByKey_eq_nil]
    constructor
    · intro hnil a ha hafid
      have hex : ∃ t ∈ s.trabajadores, (fun t : Trabajador => t.id == a.trabajador_id) t := by
        obtain ⟨t, ht, hid⟩ := hfk a ha
        exact ⟨t, ht, by simp [hid]⟩
      obtain ⟨t, hfind⟩ := Option.isSome_iff_exists.mp (List.find?_isSome.mpr hex)
      have : t ∈ ((s.asignaciones.filter (fun a => a.faena_id == fid)).filterMap
          (fun a => s.trabajadores.find? (fun t => t.id == a.trabajador_id))) := by
        rw [List.mem_filterMap]
        exact ⟨a, List.mem_filter.mpr ⟨ha, by simp [hafid]⟩, hfind⟩
      rw [hnil] at this
      simp at this
    · intro hall
      have : s.asignaciones.filter (fun a => a.faena_id == fid) = [] := by
        rw [List.filter_eq_nil_iff]
        intro a ha
        simp [hall a ha]
      rw [this]
      rfl

/-- C3 witness: the empty-mapping characterization at the concrete store. -/
theorem C3_pendientes_spec_witness :
    pendientes_obligatorios egStore1 1 = [] ↔
      ∀ a ∈ egStore1.asignaciones, a.faena_id ≠ 1 :=
  (C3_pendientes_spec egStore1 1 (by decide)).2.2.2

/-! ## Filesystem model

Existing regular files only, as `(path, content)` pairs; directories are
implicit in the `/`-separated paths. -/

abbrev FS := List (String × String)

def pathHasPrefix (pre p : String) : Bool := pre.data.isPrefixOf p.data

def pathHasSuffix (sfx p : String) : Bool := sfx.data.isSuffixOf p.data

def fsGet (fs : FS) (p : String) : Option String :=
  (fs.find? (fun e => e.1 == p)).map (fun e => e.2)

/-- `os.path.exists` for a regular file. -/
def fsExists (fs : FS) (p : String) : Bool :=
  (fs.find? (fun e => e.1 == p)).isSome

/-- `os.path.exists` for a directory: some file lives strictly below it. -/
def dirExists (fs : FS) (d : String) : Bool :=
  fs.any (fun e => pathHasPrefix (d ++ "/") e.1)

/-- `os.remove`. -/
def fsRemove (fs : FS) (p : String) : FS :=
  fs.filter (fun e => !(e.1 == p))

/-- Create or overwrite a file (`open(path, "wb").write`). -/
def fsSet (fs : FS) (p : String) (c : String) : FS :=
  (p, c) :: fsRemove fs p

/-- `shutil.rmtree d`. -/
def fsRemoveTree (fs : FS) (d : String) : FS :=
  fs.filter (fun e => !(pathHasPrefix (d ++ "/") e.1))

/-- `shutil.copytree src dst`: every file under `src/` duplicated under
`dst/`. -/
def copyTreeEntries (fs : FS) (src dst : String) : FS :=
  fs.filterMap (fun e =>
    if pathHasPrefix (src ++ "/") e.1 then
      some (dst ++ "/" ++ (e.1.drop (src.length + 1)), e.2)
    else none)

/-! ## BackupManager: `restore_from_backup_zip` (source lines 869-926) -/

def DB_PATH : String := "app.db"
def UPLOAD_ROOT : String := "uploads"

/-- The three `ValueError` exits of `restore_from_backup_zip`:
`badZip` when the bytes are not a valid archive, `codeBackup` for the
distinct "backup de CÓDIGO ... NO contiene la base de datos" diagnosis,
`noDb` for the generic "El ZIP no contiene una base de datos". -/
inductive RestoreError
  | badZip
  | codeBackup
  | noDb
deriving DecidableEq

/-- Case-insensitive `.db` / `.sqlite` / `.sqlite3` extension test
(`fn.lower().endswith((".db", ".sqlite", ".sqlite3"))`; for these
slash-free patterns the suffix of the basename equals the suffix of the
whole path). -/
def hasDbExt (p : String) : Bool :=
  let low := String.mk (p.data.map pyLower)
  pathHasSuffix ".db" low || pathHasSuffix ".sqlite" low ||
    pathHasSuffix ".sqlite3" low

/-- The ordered candidate list of the restore search: the four fixed
paths first (exact current layout, then legacy variants), then the
`os.walk` scan for any file with a database extension (walk order
modelled as archive entry order). -/
def restoreCandidates (tmp : String) (s1 : FS) : List String :=
  [tmp ++ "/backup/app.db", tmp ++ "/app.db",
   tmp ++ "/backup/DB/app.db", tmp ++ "/data/app.db"] ++
  s1.filterMap (fun e =>
    if pathHasPrefix (tmp ++ "/") e.1 && hasDbExt e.1 then some e.1 else none)

/-- `restore_from_backup_zip`, as a function from the current filesystem
and the (already parsed, `none` = invalid zip) archive to the result and
the successive filesystem states after each mutating step.  The final
list element is the state after the unconditional `finally: rmtree(tmp)`;
`init_db` (schema migration) only touches the database content, not the
file tree, so it is the identity here. -/
def restoreRun (fs : FS) (archive : Option FS) (ts : String) :
    Except RestoreError Unit × List FS :=
  let tmp := "_restore_" ++ ts
  match archive with
  | none => (Except.error RestoreError.badZip, [fsRemoveTree fs tmp])
  | some entries =>
      let s1 := fs ++ entries.map (fun e => (tmp ++ "/" ++ e.1, e.2))
      match (restoreCandidates tmp s1).find? (fun p => fsExists s1 p) with
      | none =>
          let hasCode := fsExists s1 (tmp ++ "/streamlit_app.py") ||
            fsExists s1 (tmp ++ "/backup/streamlit_app.py")
          ((if hasCode then Except.error RestoreError.codeBackup
            else Except.error RestoreError.noDb), [s1, fsRemoveTree s1 tmp])
      | some dbc =>
          let s2 := if fsExists s1 DB_PATH then fsRemove s1 DB_PATH else s1
          let s3 := fsSet (fsRemove s2 dbc) DB_PATH ((fsGet s1 dbc).getD "")
          let up1 := tmp ++ "/backup/" ++ UPLOAD_ROOT
          let up2 := tmp ++ "/" ++ UPLOAD_ROOT
          let s4 :=
            if dirExists s3 up1 then
              fsRemoveTree s3 UPLOAD_ROOT ++ copyTreeEntries s3 up1 UPLOAD_ROOT
            else if dirExists s3 up2 then
              fsRemoveTree s3 UPLOAD_ROOT ++ copyTreeEntries s3 up2 UPLOAD_ROOT
            else s3
          (Except.ok (), [s1, s2, s3, s4, fsRemoveTree s4 tmp])

/-! ## C4: restore search order, code-backup diagnosis, scratch cleanup -/

theorem pathHasPrefix_append (a b : String) : pathHasPrefix a (a ++ b) = true := by
  unfold pathHasPrefix
  rw [String.data_append]
  exact List.isPrefixOf_iff_prefix.mpr (List.prefix_append _ _)

theorem string_append_cancel {a x y : String} (h : a ++ x = a ++ y) : x = y := by
  have hd := congrArg String.data h
  rw [String.data_append, String.data_append] at hd
  exact String.ext (List.append_cancel_left hd)

theorem fsExists_iff (fs : FS) (p : String) :
    fsExists fs p = true ↔ ∃ e ∈ fs, e.1 = p := by
  unfold fsExists
  rw [Option.isSome_iff_exists]
  constructor
  · rintro ⟨e, he⟩
    refine ⟨e, List.mem_of_find?_eq_some he, ?_⟩
    have := List.find?_some he
    simpa using this
  · rintro ⟨e, he, hp⟩
    have hex : ∃ x ∈ fs, (fun e : String × String => e.1 == p) x = true :=
      ⟨e, he, by simp [hp]⟩
    obtain ⟨x, hx⟩ := Option.isSome_iff_exists.mp (List.find?_isSome.mpr hex)
    exact ⟨x, hx⟩

theorem extract_exists_iff (fs entries : FS) (tmp x : String)
    (hclean : ∀ e ∈ fs, pathHasPrefix (tmp ++ "/") e.1 = false) :
    fsExists (fs ++ entries.map (fun e => (tmp ++ "/" ++ e.1, e.2))) (tmp ++ "/" ++ x) = true
      ↔ x ∈ entries.map Prod.fst := by
  rw [fsExists_iff]
  constructor
  · rintro ⟨e, he, hp⟩
    rcases List.mem_append.mp he with h1 | h1
    · exfalso
      have hc := hclean e h1
      rw [hp, pathHasPrefix_append] at hc
      exact absurd hc (by decide)
    · rw [List.mem_map] at h1
      obtain ⟨e0, he0, rfl⟩ := h1
      have : e0.1 = x := string_append_cancel hp
      rw [List.mem_map]
      exact ⟨e0, he0, this⟩
  · intro hx
    rw [List.mem_map] at hx
    obtain ⟨e0, he0, rfl⟩ := hx
    exact ⟨(tmp ++ "/" ++ e0.1, e0.2),
      List.mem_append_right _ (List.mem_map.mpr ⟨e0, he0, rfl⟩), rfl⟩

theorem fsRemoveTree_clean (fs : FS) (d : String) :
    ∀ e ∈ fsRemoveTree fs d, pathHasPrefix (d ++ "/") e.1 = false := by
  intro e he
  have h2 := (List.mem_filter.mp he).2
  cases h : pathHasPrefix (d ++ "/") e.1
  · rfl
  · rw [h] at h2
    exact absurd h2 (by decide)

/-- The four fixed candidate paths, relative to the scratch root, in
their search order. -/
def fixedCandidateNames : List String :=
  ["backup/app.db", "app.db", "backup/DB/app.db", "data/app.db"]

theorem restoreCandidates_split (tmp : String) (s1 : FS) :
    restoreCandidates tmp s1 =
      fixedCandidateNames.map (fun n => tmp ++ "/" ++ n) ++
      s1.filterMap (fun e =>
        if pathHasPrefix (tmp ++ "/") e.1 && hasDbExt e.1 then some e.1 else none) := by
  unfold restoreCandidates fixedCandidateNames
  have h1 : tmp ++ "/backup/app.db" = tmp ++ "/" ++ "backup/app.db" := by
    rw [String.append_assoc]
    rfl
  have h2 : tmp ++ "/app.db" = tmp ++ "/" ++ "app.db" := by
    rw [String.append_assoc]
    rfl
  have h3 : tmp ++ "/backup/DB/app.db" = tmp ++ "/" ++ "backup/DB/app.db" := by
    rw [String.append_assoc]
    rfl
  have h4 : tmp ++ "/data/app.db" = tmp ++ "/" ++ "data/app.db" := by
    rw [String.append_assoc]
    rfl
  rw [h1, h2, h3, h4]
  rfl

/-- The ordered search finds something iff the archive holds a fixed-path
database or any entry with a recognized database extension. -/
theorem restore_search_isSome_iff (fs entries : FS) (ts : String)
    (hclean : ∀ e ∈ fs, pathHasPrefix ("_restore_" ++ ts ++ "/") e.1 = false) :
    (((restoreCandidates ("_restore_" ++ ts)
        (fs ++ entries.map (fun e => ("_restore_" ++ ts ++ "/" ++ e.1, e.2)))).find?
        (fun p => fsExists
          (fs ++ entries.map (fun e => ("_restore_" ++ ts ++ "/" ++ e.1, e.2))) p)).isSome
      ↔ ∃ n ∈ entries.map Prod.fst,
          n ∈ fixedCandidateNames ∨ hasDbExt ("_restore_" ++ ts ++ "/" ++ n) = true) := by
  set tmp := "_restore_" ++ ts with htmp
  set s1 := fs ++ entries.map (fun e => (tmp ++ "/" ++ e.1, e.2)) with hs1
  rw [List.find?_isSome]
  constructor
  · rintro ⟨p, hp, hex⟩
    rw [restoreCandidates_split] at hp
    rcases List.mem_append.mp hp with h1 | h1
    · rw [List.mem_map] at h1
      obtain ⟨n, hn, rfl⟩ := h1
      have := (extract_exists_iff fs entries tmp n hclean).mp hex
      exact ⟨n, this, Or.inl hn⟩
    · rw [List.mem_filterMap] at h1
      obtain ⟨e, he, hcond⟩ := h1
      by_cases hc : (pathHasPrefix (tmp ++ "/") e.1 && hasDbExt e.1) = true
      · rw [if_pos hc] at hcond
        injection hcond with hpe
        subst hpe
        rcases List.mem_append.mp he with h2 | h2
        · exfalso
          have := hclean e h2
          rw [Bool.and_eq_true] at hc
          rw [this] at hc
          exact absurd hc.1 (by decide)
        · rw [List.mem_map] at h2
          obtain ⟨e0, he0, rfl⟩ := h2
          rw [Bool.and_eq_true] at hc
          exact ⟨e0.1, List.mem_map.mpr ⟨e0, he0, rfl⟩, Or.inr hc.2⟩
      · rw [if_neg hc] at hcond
        exact absurd hcond (by simp)
  · rintro ⟨n, hn, hor⟩
    rcases hor with hfix | hext
    · refine ⟨tmp ++ "/" ++ n, ?_, (extract_exists_iff fs entries tmp n hclean).mpr hn⟩
      rw [restoreCandidates_split]
      exact List.mem_append_left _ (List.mem_map.mpr ⟨n, hfix, rfl⟩)
    · refine ⟨tmp ++ "/" ++ n, ?_, (extract_exists_iff fs entries tmp n hclean).mpr hn⟩
      rw [restoreCandidates_split]
      refine List.mem_append_right _ ?_
      rw [List.mem_filterMap]
      rw [List.mem_map] at hn
      obtain ⟨e0, he0, rfl⟩ := hn
      refine ⟨(tmp ++ "/" ++ e0.1, e0.2),
        List.mem_append_right _ (List.mem_map.mpr ⟨e0, he0, rfl⟩), ?_⟩
      rw [if_pos]
      rw [Bool.and_eq_true]
      exact ⟨pathHasPrefix_append _ _, hext⟩

/-- C4: the restore locates the database by the priority-ordered search
(exact expected path `backup/app.db` first, then legacy variants, then a
scan for any recognized database extension — the search succeeds iff one
of these is present); an archive with no database but with application
source yields the distinct code-backup diagnosis (and the generic
not-found one otherwise); and the scratch directory contains no file in
the final state of every exit path. -/
theorem C4_restore_spec (fs : FS) (archive : Option FS) (ts : String)
    (hclean : ∀ e ∈ fs, pathHasPrefix ("_restore_" ++ ts ++ "/") e.1 = false) :
    (∀ st, ((restoreRun fs archive ts).2).getLast? = some st →
      ∀ e ∈ st, pathHasPrefix ("_restore_" ++ ts ++ "/") e.1 = false) ∧
    (∀ entries, archive = some entries →
      (((restoreRun fs archive ts).1 = Except.ok ()) ↔
        ∃ n ∈ entries.map Prod.fst,
          n ∈ fixedCandidateNames ∨
            hasDbExt ("_restore_" ++ ts ++ "/" ++ n) = true) ∧
      ("backup/app.db" ∈ entries.map Prod.fst →
        (restoreCandidates ("_restore_" ++ ts)
            (fs ++ entries.map (fun e => ("_restore_" ++ ts ++ "/" ++ e.1, e.2)))).find?
            (fun p => fsExists
              (fs ++ entries.map (fun e => ("_restore_" ++ ts ++ "/" ++ e.1, e.2))) p)
          = some ("_restore_" ++ ts ++ "/" ++ "backup/app.db")) ∧
      ((∀ n ∈ entries.map Prod.fst,
          n ∉ fixedCandidateNames ∧
            hasDbExt ("_restore_" ++ ts ++ "/" ++ n) = false) →
        (("streamlit_app.py" ∈ entries.map Prod.fst ∨
            "backup/streamlit_app.py" ∈ entries.map Prod.fst) →
          (restoreRun fs archive ts).1 = Except.error RestoreError.codeBackup) ∧
        (("streamlit_app.py" ∉ entries.map Prod.fst ∧
            "backup/streamlit_app.py" ∉ entries.map Prod.fst) →
          (restoreRun fs archive ts).1 = Except.error RestoreError.noDb))) := by
  constructor
  · -- scratch cleanup on every exit path
    intro st hst e he
    cases archive with
    | none =>
        simp only [restoreRun, List.getLast?_singleton, Option.some.injEq] at hst
        subst hst
        exact fsRemoveTree_clean fs _ e he
    | some entries =>
        rcases hf : (restoreCandidates ("_restore_" ++ ts)
            (fs ++ entries.map (fun e => ("_restore_" ++ ts ++ "/" ++ e.1, e.2)))).find?
            (fun p => fsExists
              (fs ++ entries.map (fun e => ("_restore_" ++ ts ++ "/" ++ e.1, e.2))) p)
          with _ | dbc
        · simp only [restoreRun, hf] at hst
          simp only [List.getLast?, Option.some.injEq] at hst
          subst hst
          exact fsRemoveTree_clean _ _ e he
        · simp only [restoreRun, hf] at hst
          simp only [List.getLast?, Option.some.injEq] at hst
          subst hst
          exact fsRemoveTree_clean _ _ e he
  · rintro entries rfl
    refine ⟨?_, ?_, ?_⟩
    · -- success iff a recognized database is present
      rw [← restore_search_isSome_iff fs entries ts hclean]
      rcases hf : (restoreCandidates ("_restore_" ++ ts)
          (fs ++ entries.map (fun e => ("_restore_" ++ ts ++ "/" ++ e.1, e.2)))).find?
          (fun p => fsExists
            (fs ++ entries.map (fun e => ("_restore_" ++ ts ++ "/" ++ e.1, e.2))) p)
        with _ | dbc
      · simp only [restoreRun, hf]
        constructor
        · intro h
          by_cases hcode : (fsExists
                (fs ++ entries.map (fun e => ("_restore_" ++ ts ++ "/" ++ e.1, e.2)))
                ("_restore_" ++ ts ++ "/streamlit_app.py") ||
              fsExists
                (fs ++ entries.map (fun e => ("_restore_" ++ ts ++ "/" ++ e.1, e.2)))
                ("_restore_" ++ ts ++ "/backup/streamlit_app.py")) = true
          · rw [if_pos hcode] at h
            exact absurd h (by simp)
          · rw [if_neg hcode] at h
            exact absurd h (by simp)
        · intro h
          simp at h
      · simp only [restoreRun, hf]
        simp
    · -- the exact expected path wins the search
      intro hmem
      rw [restoreCandidates_split]
      have hsplit : ("_restore_" ++ ts) ++ "/backup/app.db"
          = "_restore_" ++ ts ++ "/" ++ "backup/app.db" := by
        rw [String.append_assoc ("_restore_" ++ ts) "/" "backup/app.db"]
        rfl
      have hex : fsExists
          (fs ++ entries.map (fun e => ("_restore_" ++ ts ++ "/" ++ e.1, e.2)))
          ("_restore_" ++ ts ++ "/" ++ "backup/app.db") = true :=
        (extract_exists_iff fs entries _ _ hclean).mpr hmem
      show (("_restore_" ++ ts ++ "/" ++ "backup/app.db") :: _).find? _ = _
      rw [List.find?_cons_of_pos _ hex]
    · -- diagnosis when no database is locatable
      intro hnone
      have hfind : (restoreCandidates ("_restore_" ++ ts)
          (fs ++ entries.map (fun e => ("_restore_" ++ ts ++ "/" ++ e.1, e.2)))).find?
          (fun p => fsExists
            (fs ++ entries.map (fun e => ("_restore_" ++ ts ++ "/" ++ e.1, e.2))) p)
          = none := by
        rcases hf : (restoreCandidates ("_restore_" ++ ts)
            (fs ++ entries.map (fun e => ("_restore_" ++ ts ++ "/" ++ e.1, e.2)))).find?
            (fun p => fsExists
              (fs ++ entries.map (fun e => ("_restore_" ++ ts ++ "/" ++ e.1, e.2))) p)
          with _ | dbc
        · rfl
        · exfalso
          have hs : (((restoreCandidates ("_restore_" ++ ts)
              (fs ++ entries.map (fun e => ("_restore_" ++ ts ++ "/" ++ e.1, e.2)))).find?
              (fun p => fsExists
                (fs ++ entries.map (fun e => ("_restore_" ++ ts ++ "/" ++ e.1, e.2))) p)).isSome
              = true) := by
            rw [hf]
            rfl
          obtain ⟨n, hn, hor⟩ := (restore_search_isSome_iff fs entries ts hclean).mp hs
          obtain ⟨hnf, hne⟩ := hnone n hn
          rcases hor with h | h
          · exact hnf h
          · rw [hne] at h
            exact absurd h (by decide)
      have hcodeiff : ∀ x : String,
          fsExists (fs ++ entries.map (fun e => ("_restore_" ++ ts ++ "/" ++ e.1, e.2)))
            ("_restore_" ++ ts ++ "/" ++ x) = true ↔ x ∈ entries.map Prod.fst :=
        fun x => extract_exists_iff fs entries _ x hclean
      have h1 : ("_restore_" ++ ts) ++ "/streamlit_app.py"
          = "_restore_" ++ ts ++ "/" ++ "streamlit_app.py" := by
        rw [String.append_assoc ("_restore_" ++ ts) "/" "streamlit_app.py"]
        rfl
      have h2 : ("_restore_" ++ ts) ++ "/backup/streamlit_app.py"
          = "_restore_" ++ ts ++ "/" ++ "backup/streamlit_app.py" := by
        rw [String.append_assoc ("_restore_" ++ ts) "/" "backup/streamlit_app.py"]
        rfl
      constructor
      · intro hcode
        simp only [restoreRun, hfind]
        rw [if_pos]
        rw [Bool.or_eq_true, h1, h2, hcodeiff, hcodeiff]
        exact hcode
      · rintro ⟨hc1, hc2⟩
        simp only [restoreRun, hfind]
        rw [if_neg]
        rw [Bool.or_eq_true, h1, h2, hcodeiff, hcodeiff]
        rintro (h | h)
        · exact hc1 h
        · exact hc2 h

/-- C4 witness: restoring an archive that only contains application
source raises the distinct code-backup diagnosis. -/
theorem C4_restore_spec_witness :
    (restoreRun [] (some [("streamlit_app.py", "c")]) "T").1
      = Except.error RestoreError.codeBackup := by
  have h := C4_restore_spec [] (some [("streamlit_app.py", "c")]) "T"
    (by intro e he; exact absurd he (List.not_mem_nil e))
  exact ((h.2 [("streamlit_app.py", "c")] rfl).2.2 (by decide)).1 (by decide)

/-! ## C5: database replacement during restore -/

/-- `find?` is unchanged by a `filter` that only discards elements the
search predicate rejects. -/
theorem find?_filter_of_imp {α : Type} (p q : α → Bool)
    (h : ∀ e, p e = true → q e = true) :
    ∀ l : List α, (l.filter q).find? p = l.find? p := by
  intro l
  induction l with
  | nil => rfl
  | cons a r ih =>
      by_cases hq : q a = true
      · rw [List.filter_cons_of_pos hq]
        by_cases hp : p a = true
        · rw [List.find?_cons_of_pos _ hp, List.find?_cons_of_pos _ hp]
        · rw [List.find?_cons_of_neg _ (by simpa using hp),
            List.find?_cons_of_neg _ (by simpa using hp)]
          exact ih
      · rw [List.filter_cons_of_neg (by simpa using hq)]
        have hp : p a = false := by
          cases hpa : p a
          · rfl
          · exact absurd (h a hpa) hq
        rw [List.find?_cons_of_neg _ (by simp [hp])]
        exact ih

theorem fsGet_fsSet (fs : FS) (p c : String) : fsGet (fsSet fs p c) p = some c := by
  unfold fsGet fsSet
  rw [List.find?_cons_of_pos _ (by simp)]
  rfl

theorem find?_fsRemove_self (fs : FS) (p : String) :
    ((fsRemove fs p).find? (fun e => e.1 == p)) = none := by
  rw [List.find?_eq_none]
  intro x hx
  have h2 := (List.mem_filter.mp hx).2
  intro hp
  rw [hp] at h2
  exact absurd h2 (by decide)

theorem fsExists_fsRemove_self (fs : FS) (p : String) :
    fsExists (fsRemove fs p) p = false := by
  unfold fsExists
  rw [find?_fsRemove_self]
  rfl

theorem fsGet_fsRemove_self (fs : FS) (p : String) :
    fsGet (fsRemove fs p) p = none := by
  unfold fsGet
  rw [find?_fsRemove_self]
  rfl

theorem tmpPath_ne_db (ts n : String) : "_restore_" ++ ts ++ "/" ++ n ≠ DB_PATH := by
  intro h
  have h2 : pathHasPrefix ("_restore_" ++ ts ++ "/") ("_restore_" ++ ts ++ "/" ++ n) = true :=
    pathHasPrefix_append _ _
  rw [h] at h2
  have h3 : pathHasPrefix ("_restore_" ++ ts ++ "/") DB_PATH = false := rfl
  rw [h2] at h3
  exact absurd h3 (by decide)

/-- Reading `app.db` ignores the extracted scratch entries. -/
theorem fsGet_extract (fs entries : FS) (ts : String) :
    fsGet (fs ++ entries.map (fun e => ("_restore_" ++ ts ++ "/" ++ e.1, e.2))) DB_PATH
      = fsGet fs DB_PATH := by
  unfold fsGet
  rw [List.find?_append]
  have hnone : (entries.map (fun e => ("_restore_" ++ ts ++ "/" ++ e.1, e.2))).find?
      (fun e => e.1 == DB_PATH) = none := by
    rw [List.find?_eq_none]
    intro x hx
    rw [List.mem_map] at hx
    obtain ⟨e0, -, rfl⟩ := hx
    simp only [beq_iff_eq]
    exact tmpPath_ne_db ts e0.1
  rw [hnone]
  cases (fs.find? (fun e => e.1 == DB_PATH)) <;> rfl

/-- Removing a subtree that cannot contain `app.db` keeps its content. -/
theorem fsGet_fsRemoveTree_db (fs : FS) (d : String)
    (hd : pathHasPrefix (d ++ "/") DB_PATH = false) :
    fsGet (fsRemoveTree fs d) DB_PATH = fsGet fs DB_PATH := by
  unfold fsGet fsRemoveTree
  rw [find?_filter_of_imp]
  intro e he
  have : e.1 = DB_PATH := by simpa using he
  rw [this, hd]
  rfl

/-! Named intermediate filesystem states of the successful restore path,
matching the `let`s of `restoreRun`. -/

def rsS1 (fs entries : FS) (ts : String) : FS :=
  fs ++ entries.map (fun e => ("_restore_" ++ ts ++ "/" ++ e.1, e.2))

def rsPayload (fs entries : FS) (ts dbc : String) : String :=
  (fsGet (rsS1 fs entries ts) dbc).getD ""

def rsS2 (fs entries : FS) (ts : String) : FS :=
  if fsExists (rsS1 fs entries ts) DB_PATH
  then fsRemove (rsS1 fs entries ts) DB_PATH else rsS1 fs entries ts

def rsS3 (fs entries : FS) (ts dbc : String) : FS :=
  fsSet (fsRemove (rsS2 fs entries ts) dbc) DB_PATH (rsPayload fs entries ts dbc)

def rsS4 (fs entries : FS) (ts dbc : String) : FS :=
  if dirExists (rsS3 fs entries ts dbc) ("_restore_" ++ ts ++ "/backup/" ++ UPLOAD_ROOT) then
    fsRemoveTree (rsS3 fs entries ts dbc) UPLOAD_ROOT ++
      copyTreeEntries (rsS3 fs entries ts dbc)
        ("_restore_" ++ ts ++ "/backup/" ++ UPLOAD_ROOT) UPLOAD_ROOT
  else if dirExists (rsS3 fs entries ts dbc) ("_restore_" ++ ts ++ "/" ++ UPLOAD_ROOT) then
    fsRemoveTree (rsS3 fs entries ts dbc) UPLOAD_ROOT ++
      copyTreeEntries (rsS3 fs entries ts dbc)
        ("_restore_" ++ ts ++ "/" ++ UPLOAD_ROOT) UPLOAD_ROOT
  else rsS3 fs entries ts dbc

def rsS5 (fs entries : FS) (ts dbc : String) : FS :=
  fsRemoveTree (rsS4 fs entries ts dbc) ("_restore_" ++ ts)

theorem restoreRun_of_found (fs entries : FS) (ts dbc : String)
    (hf : (restoreCandidates ("_restore_" ++ ts)
        (fs ++ entries.map (fun e => ("_restore_" ++ ts ++ "/" ++ e.1, e.2)))).find?
        (fun p => fsExists
          (fs ++ entries.map (fun e => ("_restore_" ++ ts ++ "/" ++ e.1, e.2))) p)
      = some dbc) :
    restoreRun fs (some entries) ts =
      (Except.ok (), [rsS1 fs entries ts, rsS2 fs entries ts,
        rsS3 fs entries ts dbc, rsS4 fs entries ts dbc, rsS5 fs entries ts dbc]) := by
  simp only [restoreRun, rsS5, rsS4, rsS3, rsS2, rsPayload, rsS1]
  rw [hf]

theorem fsGet_append_of_left (l r : FS) (p c : String)
    (h : fsGet l p = some c) : fsGet (l ++ r) p = some c := by
  unfold fsGet at h ⊢
  rw [List.find?_append]
  cases hl : l.find? (fun e => e.1 == p) with
  | none => rw [hl] at h; exact absurd h (by simp)
  | some e => rw [hl] at h; simpa using h

theorem fsGet_rsS3 (fs entries : FS) (ts dbc : String) :
    fsGet (rsS3 fs entries ts dbc) DB_PATH = some (rsPayload fs entries ts dbc) := by
  unfold rsS3
  exact fsGet_fsSet _ _ _

theorem fsGet_rsS4 (fs entries : FS) (ts dbc : String) :
    fsGet (rsS4 fs entries ts dbc) DB_PATH = some (rsPayload fs entries ts dbc) := by
  unfold rsS4
  have hup : pathHasPrefix (UPLOAD_ROOT ++ "/") DB_PATH = false := rfl
  by_cases h1 : dirExists (rsS3 fs entries ts dbc)
      ("_restore_" ++ ts ++ "/backup/" ++ UPLOAD_ROOT) = true
  · rw [if_pos h1]
    refine fsGet_append_of_left _ _ _ _ ?_
    rw [fsGet_fsRemoveTree_db _ _ hup]
    exact fsGet_rsS3 fs entries ts dbc
  · rw [if_neg h1]
    by_cases h2 : dirExists (rsS3 fs entries ts dbc)
        ("_restore_" ++ ts ++ "/" ++ UPLOAD_ROOT) = true
    · rw [if_pos h2]
      refine fsGet_append_of_left _ _ _ _ ?_
      rw [fsGet_fsRemoveTree_db _ _ hup]
      exact fsGet_rsS3 fs entries ts dbc
    · rw [if_neg h2]
      exact fsGet_rsS3 fs entries ts dbc

theorem fsGet_rsS5 (fs entries : FS) (ts dbc : String) :
    fsGet (rsS5 fs entries ts dbc) DB_PATH = some (rsPayload fs entries ts dbc) := by
  unfold rsS5
  rw [fsGet_fsRemoveTree_db (rsS4 fs entries ts dbc) ("_restore_" ++ ts) rfl]
  exact fsGet_rsS4 fs entries ts dbc

/-- C5 (amended): on the successful restore path the located payload is
moved whole into `app.db` by a rename — the final state holds exactly
the payload, and every intermediate state holds either the old content,
the new payload, or no file at all (no truncation, no partial write) —
but the live database is removed before the rename, so when it existed
beforehand there is an intermediate state with `app.db` absent. -/
theorem C5_replace_spec (fs entries : FS) (ts dbc : String)
    (hf : (restoreCandidates ("_restore_" ++ ts)
        (fs ++ entries.map (fun e => ("_restore_" ++ ts ++ "/" ++ e.1, e.2)))).find?
        (fun p => fsExists
          (fs ++ entries.map (fun e => ("_restore_" ++ ts ++ "/" ++ e.1, e.2))) p)
      = some dbc) :
    (restoreRun fs (some entries) ts).1 = Except.ok () ∧
    fsGet (rsS3 fs entries ts dbc) DB_PATH = some (rsPayload fs entries ts dbc) ∧
    (∀ st, ((restoreRun fs (some entries) ts).2).getLast? = some st →
      fsGet st DB_PATH = some (rsPayload fs entries ts dbc)) ∧
    (∀ st ∈ (restoreRun fs (some entries) ts).2, ∀ c, fsGet st DB_PATH = some c →
      fsGet fs DB_PATH = some c ∨ c = rsPayload fs entries ts dbc) ∧
    (fsExists fs DB_PATH = true →
      ∃ st ∈ (restoreRun fs (some entries) ts).2, fsExists st DB_PATH = false) := by
  have hrun := restoreRun_of_found fs entries ts dbc hf
  have hS1 : fsGet (rsS1 fs entries ts) DB_PATH = fsGet fs DB_PATH := by
    unfold rsS1
    exact fsGet_extract fs entries ts
  refine ⟨by rw [hrun], fsGet_rsS3 fs entries ts dbc, ?_, ?_, ?_⟩
  · intro st hst
    rw [hrun] at hst
    simp only [List.getLast?, Option.some.injEq] at hst
    subst hst
    exact fsGet_rsS5 fs entries ts dbc
  · intro st hst c hc
    rw [hrun] at hst
    simp only [List.mem_cons, List.not_mem_nil, or_false] at hst
    rcases hst with rfl | rfl | rfl | rfl | rfl
    · rw [hS1] at hc
      exact Or.inl hc
    · unfold rsS2 at hc
      by_cases hex : fsExists (rsS1 fs entries ts) DB_PATH = true
      · rw [if_pos hex] at hc
        rw [fsGet_fsRemove_self] at hc
        exact absurd hc (by simp)
      · rw [if_neg hex] at hc
        rw [hS1] at hc
        exact Or.inl hc
    · rw [fsGet_rsS3 fs entries ts dbc] at hc
      injection hc with hc
      exact Or.inr hc.symm
    · rw [fsGet_rsS4 fs entries ts dbc] at hc
      injection hc with hc
      exact Or.inr hc.symm
    · rw [fsGet_rsS5 fs entries ts dbc] at hc
      injection hc with hc
      exact Or.inr hc.symm
  · intro hdb
    rw [hrun]
    refine ⟨rsS2 fs entries ts, by simp, ?_⟩
    have hex : fsExists (rsS1 fs entries ts) DB_PATH = true := by
      rw [fsExists_iff]
      obtain ⟨e, he, hp⟩ := (fsExists_iff fs DB_PATH).mp hdb
      exact ⟨e, List.mem_append_left _ he, hp⟩
    unfold rsS2
    rw [if_pos hex]
    exact fsExists_fsRemove_self _ _

/-- C5 witness: a concrete successful restore exhibits the absent-window
state. -/
theorem C5_replace_spec_witness :
    ∃ st ∈ (restoreRun [("app.db", "old")] (some [("backup/app.db", "new")]) "T").2,
      fsExists st DB_PATH = false :=
  (C5_replace_spec [("app.db", "old")] [("backup/app.db", "new")] "T"
      ("_restore_" ++ "T" ++ "/backup/app.db") (by decide)).2.2.2.2 (by decide)

/-- C5 counterexample: the claim "there is no intermediate state in which
the live structured-data file is absent" fails — on a concrete restore
over an existing `app.db` some non-final state lacks `app.db`. -/
theorem C5_remove_window_cex :
    fsExists [("app.db", "old")] DB_PATH = true ∧
    ∃ st ∈ (restoreRun [("app.db", "old")] (some [("backup/app.db", "new")]) "T").2,
      fsExists st DB_PATH = false ∧
      ((restoreRun [("app.db", "old")] (some [("backup/app.db", "new")]) "T").2).getLast?
        ≠ some st := by
  decide

/-! ## BackupManager: auto snapshots (source lines 936-979) -/

/-- One row of `auto_backup_historial`. -/
structure ABRow where
  id : Nat
  tag : String
  file_path : String
deriving DecidableEq

/-- The state `auto_backup_db` touches: the history table (kept newest
first, ids strictly decreasing, so the source's `ORDER BY id DESC` is the
identity on it), the `AUTOINCREMENT` counter, the uploads tree, and the
session toggle `auto_backup_enabled`. -/
structure BState where
  rows : List ABRow
  nextId : Nat
  files : FS
  enabled : Bool
deriving DecidableEq

/-- `cleanup_old_auto_backups` (source lines 936-955): drop every row
after the `keep_last` most recent; best-effort delete their files
(`canDelete` models whether a particular `os.remove` succeeds — its
failure is swallowed by the inner `try/except`); delete the rows by id. -/
def cleanup_old_auto_backups (canDelete : String → Bool) (keep_last : Nat)
    (st : BState) : BState :=
  let hist := st.rows
  let to_delete := hist.drop keep_last
  let files' := to_delete.foldl
    (fun fs r =>
      if fsExists fs r.file_path && canDelete r.file_path
      then fsRemove fs r.file_path else fs)
    st.files
  let ids := to_delete.map (fun r => r.id)
  let rows' := st.rows.filter (fun r => !(ids.contains r.id))
  { st with rows := rows', files := files' }

/-- `save_file(["auto_backups"], f"auto_db_{ts}_{safe_name(tag)}.db", ...)`
stores under `uploads/auto_backups/`. -/
def autoBackupPath (ts tag : String) : String :=
  UPLOAD_ROOT ++ "/auto_backups/auto_db_" ++ ts ++ "_" ++ safe_name tag ++ ".db"

/-- The body of `auto_backup_db` with failure injection: `failAt` names
the step that raises (`1` = `make_db_only_bytes`, `2` = `save_file`,
`3` = the `INSERT`; the `cleanup` call swallows its own failures, so it
never raises).  The second component is the pending exception: mutations
made before the raise persist. -/
def auto_backup_db_raw (canDelete : String → Bool) (failAt : Option Nat)
    (dbBytes tag ts : String) (st : BState) : BState × Option String :=
  if !st.enabled then (st, none)
  else if failAt = some 1 then (st, some "make_db_only_bytes")
  else if failAt = some 2 then (st, some "save_file")
  else
    let st1 := { st with files := fsSet st.files (autoBackupPath ts tag) dbBytes }
    if failAt = some 3 then (st1, some "insert")
    else
      let st2 := { st1 with
        rows := ⟨st1.nextId, tag, autoBackupPath ts tag⟩ :: st1.rows
        nextId := st1.nextId + 1 }
      (cleanup_old_auto_backups canDelete 20 st2, none)

/-- `auto_backup_db` (source lines 957-979): the whole body sits inside
`try: ... except Exception: pass`, so any pending exception is discarded
and the state reached so far is kept. -/
def auto_backup_db (canDelete : String → Bool) (failAt : Option Nat)
    (dbBytes tag ts : String) (st : BState) : Except String BState :=
  match auto_backup_db_raw canDelete failAt dbBytes tag ts st with
  | (s, none) => Except.ok s
  | (s, some _) => Except.ok s

/-- C10: `auto_backup_db` never surfaces an exception: for every failure
oracle it returns a state; with the enabled flag off it returns the state
untouched; with no failure it performs write + insert + retention; and a
failing insert still leaves only the written file behind, without
raising. -/
theorem C10_auto_backup_never_raises (canDelete : String → Bool)
    (failAt : Option Nat) (dbBytes tag ts : String) (st : BState) :
    (∃ s, auto_backup_db canDelete failAt dbBytes tag ts st = Except.ok s) ∧
    (st.enabled = false →
      auto_backup_db canDelete failAt dbBytes tag ts st = Except.ok st) ∧
    (st.enabled = true → failAt = none →
      auto_backup_db canDelete failAt dbBytes tag ts st =
        Except.ok (cleanup_old_auto_backups canDelete 20
          { st with
            files := fsSet st.files (autoBackupPath ts tag) dbBytes
            rows := ⟨st.nextId, tag, autoBackupPath ts tag⟩ :: st.rows
            nextId := st.nextId + 1 })) ∧
    (st.enabled = true → failAt = some 3 →
      auto_backup_db canDelete failAt dbBytes tag ts st =
        Except.ok { st with files := fsSet st.files (autoBackupPath ts tag) dbBytes }) := by
  refine ⟨?_, ?_, ?_, ?_⟩
  · unfold auto_backup_db
    rcases hr : auto_backup_db_raw canDelete failAt dbBytes tag ts st with ⟨s, _ | e⟩
    · exact ⟨s, rfl⟩
    · exact ⟨s, rfl⟩
  · intro hoff
    unfold auto_backup_db auto_backup_db_raw
    rw [hoff]
    rfl
  · intro hon hnone
    subst hnone
    unfold auto_backup_db auto_backup_db_raw
    rw [hon]
    rfl
  · intro hon h3
    subst h3
    unfold auto_backup_db auto_backup_db_raw
    rw [hon]
    rfl

/-- C10 witness: disabled flag and failing insert at a concrete state. -/
theorem C10_auto_backup_never_raises_witness :
    auto_backup_db (fun _ => true) none "b" "t" "T"
        ⟨[], 1, [], false⟩ = Except.ok ⟨[], 1, [], false⟩ ∧
    auto_backup_db (fun _ => true) (some 3) "b" "t" "T"
        ⟨[], 1, [], true⟩ =
      Except.ok ⟨[], 1, fsSet [] (autoBackupPath "T" "t") "b", true⟩ :=
  ⟨(C10_auto_backup_never_raises (fun _ => true) none "b" "t" "T"
      ⟨[], 1, [], false⟩).2.1 rfl,
   (C10_auto_backup_never_raises (fun _ => true) (some 3) "b" "t" "T"
      ⟨[], 1, [], true⟩).2.2.2 rfl rfl⟩

/-! ## C6: retention after a sequence of auto snapshots -/

/-- The arguments of one successful `auto_backup_db` call. -/
structure ABCall where
  tag : String
  ts : String
  dbBytes : String
deriving DecidableEq

def abCallPath (c : ABCall) : String := autoBackupPath c.ts c.tag

/-- A sequence of successful `auto_backup_db` calls. -/
def runAuto (canDelete : String → Bool) : List ABCall → BState → BState
  | [], st => st
  | c :: rest, st =>
      runAuto canDelete rest
        (auto_backup_db_raw canDelete none c.dbBytes c.tag c.ts st).1

/-- Fresh state: empty history, empty uploads, auto-backup enabled. -/
def st0 : BState := ⟨[], 1, [], true⟩

/-- The history rows the run should leave: one row per call with ids
`1, 2, …` in creation order, newest first, pruned to the 20 most
recent. -/
def expectedRows (calls : List ABCall) : List ABRow :=
  (((calls.enumFrom 1).map
      (fun p => ABRow.mk p.1 p.2.tag (abCallPath p.2))).reverse).take 20

theorem expectedRows_paths (calls : List ABCall) :
    (expectedRows calls).map (fun r => r.file_path)
      = (calls.map abCallPath).reverse.take 20 := by
  unfold expectedRows
  rw [List.map_take, List.map_reverse, List.map_map]
  have : ((fun r : ABRow => r.file_path) ∘
      (fun p : Nat × ABCall => ABRow.mk p.1 p.2.tag (abCallPath p.2)))
      = (abCallPath ∘ Prod.snd) := rfl
  rw [this, ← List.map_map, List.enumFrom_map_snd]

theorem expectedRows_ids (calls : List ABCall) :
    (expectedRows calls).map (fun r => r.id)
      = (List.range' 1 calls.length).reverse.take 20 := by
  unfold expectedRows
  rw [List.map_take, List.map_reverse, List.map_map]
  have : ((fun r : ABRow => r.id) ∘
      (fun p : Nat × ABCall => ABRow.mk p.1 p.2.tag (abCallPath p.2)))
      = Prod.fst := rfl
  rw [this, List.enumFrom_map_fst]

/-- Deleting by the ids of the dropped suffix keeps exactly the
`keep_last` prefix, provided the ids are distinct. -/
theorem filter_drop_ids (l : List ABRow) (k : Nat)
    (h : (l.map (fun r => r.id)).Nodup) :
    l.filter (fun r => !(((l.drop k).map (fun r => r.id)).contains r.id))
      = l.take k := by
  have hsplit : (l.map (fun r => r.id))
      = (l.take k).map (fun r => r.id) ++ (l.drop k).map (fun r => r.id) := by
    rw [List.map_take, List.map_drop, List.take_append_drop]
  rw [hsplit, List.nodup_append] at h
  obtain ⟨-, -, hdisj⟩ := h
  set D := (l.drop k).map (fun r => r.id) with hD
  have h1 : (l.take k).filter (fun r => !(D.contains r.id)) = l.take k := by
    rw [List.filter_eq_self]
    intro r hr
    cases hc : D.contains r.id
    · rfl
    · exfalso
      have hidmem : r.id ∈ D := List.elem_iff.mp hc
      exact hdisj (List.mem_map.mpr ⟨r, hr, rfl⟩) hidmem
  have h2 : (l.drop k).filter (fun r => !(D.contains r.id)) = [] := by
    rw [List.filter_eq_nil_iff]
    intro r hr
    have hmem : r.id ∈ D := by
      rw [hD]
      exact List.mem_map.mpr ⟨r, hr, rfl⟩
    have hc : D.contains r.id = true := List.elem_iff.mpr hmem
    simp only [hc, Bool.not_true, Bool.false_eq_true, not_false_eq_true]
  conv_lhs => rw [← List.take_append_drop k l]
  rw [List.filter_append, h1, h2, List.append_nil]

theorem runAuto_append (canDelete : String → Bool) (l1 l2 : List ABCall) :
    ∀ st, runAuto canDelete (l1 ++ l2) st
      = runAuto canDelete l2 (runAuto canDelete l1 st) := by
  induction l1 with
  | nil => intro st; rfl
  | cons c r ih => intro st; exact ih _

theorem cleanup_rows (canDelete : String → Bool) (k : Nat) (st : BState) :
    (cleanup_old_auto_backups canDelete k st).rows
      = st.rows.filter
          (fun r => !(((st.rows.drop k).map (fun r => r.id)).contains r.id)) := rfl

theorem cleanup_nextId (canDelete : String → Bool) (k : Nat) (st : BState) :
    (cleanup_old_auto_backups canDelete k st).nextId = st.nextId := rfl

theorem cleanup_enabled (canDelete : String → Bool) (k : Nat) (st : BState) :
    (cleanup_old_auto_backups canDelete k st).enabled = st.enabled := rfl

theorem runAuto_step (canDelete : String → Bool) (c : ABCall) (st : BState)
    (hen : st.enabled = true) :
    (auto_backup_db_raw canDelete none c.dbBytes c.tag c.ts st).1 =
      cleanup_old_auto_backups canDelete 20
        { st with
          files := fsSet st.files (abCallPath c) c.dbBytes
          rows := ⟨st.nextId, c.tag, abCallPath c⟩ :: st.rows
          nextId := st.nextId + 1 } := by
  unfold auto_backup_db_raw
  rw [hen]
  rfl

/-- State of the run after any call prefix: the history rows are exactly
the 20 most recent calls (newest first, ids in creation order), for
every deletion oracle; the id counter advanced once per call; the
enabled flag untouched. -/
theorem runAuto_state (canDelete : String → Bool) (calls : List ABCall) :
    (runAuto canDelete calls st0).rows = expectedRows calls ∧
    (runAuto canDelete calls st0).nextId = calls.length + 1 ∧
    (runAuto canDelete calls st0).enabled = true := by
  induction calls using List.reverseRecOn with
  | nil => exact ⟨rfl, rfl, rfl⟩
  | append_singleton l c ih =>
      obtain ⟨hrows, hnext, hen⟩ := ih
      rw [runAuto_append canDelete l [c]]
      set S := runAuto canDelete l st0 with hS
      have hstep : runAuto canDelete [c] S
          = cleanup_old_auto_backups canDelete 20
              { S with
                files := fsSet S.files (abCallPath c) c.dbBytes
                rows := ⟨S.nextId, c.tag, abCallPath c⟩ :: S.rows
                nextId := S.nextId + 1 } :=
        runAuto_step canDelete c S hen
      rw [hstep]
      have hids : ((⟨S.nextId, c.tag, abCallPath c⟩ :: S.rows).map
          (fun r : ABRow => r.id)).Nodup := by
        rw [List.map_cons, hrows, expectedRows_ids, hnext]
        change ((l.length + 1) :: (List.range' 1 l.length).reverse.take 20).Nodup
        refine List.nodup_cons.mpr ⟨?_, ?_⟩
        · intro hmem
          have h2 := (List.take_sublist _ _).subset hmem
          rw [List.mem_reverse, List.mem_range'] at h2
          obtain ⟨i, hi, heq⟩ := h2
          omega
        · exact (List.take_sublist _ _).nodup
            (List.nodup_reverse.mpr (List.nodup_range' 1 l.length))
      have hexp : expectedRows (l ++ [c])
          = ABRow.mk (1 + l.length) c.tag (abCallPath c) :: (expectedRows l).take 19 := by
        unfold expectedRows
        rw [List.enumFrom_append, List.map_append, List.reverse_append]
        have henum : ((List.enumFrom (1 + l.length) [c]).map
            (fun p : Nat × ABCall => ABRow.mk p.1 p.2.tag (abCallPath p.2))).reverse
            = [ABRow.mk (1 + l.length) c.tag (abCallPath c)] := rfl
        rw [henum, List.singleton_append, List.take_succ_cons, List.take_take]
        rfl
      refine ⟨?_, ?_, ?_⟩
      · have hval : (cleanup_old_auto_backups canDelete 20
            { S with
              files := fsSet S.files (abCallPath c) c.dbBytes
              rows := ⟨S.nextId, c.tag, abCallPath c⟩ :: S.rows
              nextId := S.nextId + 1 }).rows
            = (⟨S.nextId, c.tag, abCallPath c⟩ :: S.rows).filter
                (fun r => !((((⟨S.nextId, c.tag, abCallPath c⟩ :: S.rows).drop 20).map
                  (fun r : ABRow => r.id)).contains r.id)) := rfl
        rw [hval, filter_drop_ids _ 20 hids, List.take_succ_cons, hexp, hrows, hnext,
          Nat.add_comm 1 l.length]
      · have hval : (cleanup_old_auto_backups canDelete 20
            { S with
              files := fsSet S.files (abCallPath c) c.dbBytes
              rows := ⟨S.nextId, c.tag, abCallPath c⟩ :: S.rows
              nextId := S.nextId + 1 }).nextId = S.nextId + 1 := rfl
        rw [hval, hnext, List.length_append]
        rfl
      · have hval : (cleanup_old_auto_backups canDelete 20
            { S with
              files := fsSet S.files (abCallPath c) c.dbBytes
              rows := ⟨S.nextId, c.tag, abCallPath c⟩ :: S.rows
              nextId := S.nextId + 1 }).enabled = S.enabled := rfl
        rw [hval]
        exact hen

theorem cleanup_files (canDelete : String → Bool) (k : Nat) (st : BState) :
    (cleanup_old_auto_backups canDelete k st).files
      = (st.rows.drop k).foldl
          (fun fs r =>
            if fsExists fs r.file_path && canDelete r.file_path
            then fsRemove fs r.file_path else fs)
          st.files := rfl

theorem fsExists_fsRemove (fs : FS) (q p : String) :
    fsExists (fsRemove fs q) p = true ↔ (fsExists fs p = true ∧ p ≠ q) := by
  by_cases hpq : p = q
  · subst hpq
    rw [fsExists_fsRemove_self]
    simp
  · have heq : fsExists (fsRemove fs q) p = fsExists fs p := by
      unfold fsExists fsRemove
      rw [find?_filter_of_imp]
      intro e he
      have he1 : e.1 = p := by simpa using he
      have : (e.1 == q) = false := by
        rw [he1]
        exact beq_eq_false_iff_ne.mpr hpq
      rw [this]
      rfl
    rw [heq]
    simp [hpq]

theorem fsExists_fsSet (fs : FS) (q b p : String) :
    fsExists (fsSet fs q b) p = true ↔ (p = q ∨ fsExists fs p = true) := by
  unfold fsSet
  by_cases hpq : p = q
  · subst hpq
    unfold fsExists
    rw [List.find?_cons_of_pos _ (by simp)]
    simp
  · show fsExists ((q, b) :: fsRemove fs q) p = true ↔ _
    unfold fsExists
    rw [List.find?_cons_of_neg _ (by simp [Ne.symm hpq])]
    have := fsExists_fsRemove fs q p
    unfold fsExists at this
    rw [this]
    simp [hpq]

theorem removeFold_exists (canDelete : String → Bool)
    (hcd : ∀ s, canDelete s = true) (l : List ABRow) :
    ∀ (fs : FS) (p : String),
      fsExists (l.foldl
        (fun fs r =>
          if fsExists fs r.file_path && canDelete r.file_path
          then fsRemove fs r.file_path else fs) fs) p = true
      ↔ (fsExists fs p = true ∧ p ∉ l.map (fun r => r.file_path)) := by
  induction l with
  | nil =>
      intro fs p
      simp [List.foldl_nil]
  | cons r rest ih =>
      intro fs p
      rw [List.foldl_cons]
      have hstep : ∀ q, fsExists
          (if fsExists fs r.file_path && canDelete r.file_path
           then fsRemove fs r.file_path else fs) q = true
          ↔ (fsExists fs q = true ∧ q ≠ r.file_path) := by
        intro q
        by_cases hex : fsExists fs r.file_path = true
        · rw [if_pos (by rw [hex, hcd]; rfl)]
          exact fsExists_fsRemove fs r.file_path q
        · rw [if_neg (by rw [Bool.and_eq_true]; rintro ⟨h1, -⟩; exact hex h1)]
          constructor
          · intro h
            refine ⟨h, ?_⟩
            intro hpq
            rw [hpq] at h
            exact hex h
          · exact fun h => h.1
      rw [ih]
      rw [List.map_cons, List.mem_cons]
      constructor
      · rintro ⟨h1, h2⟩
        obtain ⟨h3, h4⟩ := (hstep p).mp h1
        refine ⟨h3, ?_⟩
        rintro (h | h)
        · exact h4 h
        · exact h2 h
      · rintro ⟨h1, h2⟩
        refine ⟨(hstep p).mpr ⟨h1, fun h => h2 (Or.inl h)⟩, fun h => h2 (Or.inr h)⟩

theorem mem_take_iff_of_nodup {α : Type} (L : List α) (k : Nat) (h : L.Nodup)
    (p : α) : p ∈ L.take k ↔ (p ∈ L ∧ p ∉ L.drop k) := by
  have hsplit : L.take k ++ L.drop k = L := List.take_append_drop k L
  have hdisj : (L.take k).Disjoint (L.drop k) := by
    have := h
    rw [← hsplit, List.nodup_append] at this
    exact this.2.2
  constructor
  · intro hmem
    refine ⟨(List.take_sublist k L).subset hmem, fun hd => hdisj hmem hd⟩
  · rintro ⟨hmem, hnd⟩
    rw [← hsplit] at hmem
    rcases List.mem_append.mp hmem with h1 | h1
    · exact h1
    · exact absurd h1 hnd

/-- Files after the run: exactly the files of the 20 retained history
rows remain (with deletions succeeding). -/
theorem runAuto_files : ∀ (calls : List ABCall),
    (calls.map abCallPath).Nodup →
    ∀ p, fsExists ((runAuto (fun _ => true) calls st0).files) p = true ↔
      p ∈ (runAuto (fun _ => true) calls st0).rows.map (fun r : ABRow => r.file_path) := by
  intro calls
  induction calls using List.reverseRecOn with
  | nil =>
      intro _ p
      simp [runAuto, st0, fsExists]
  | append_singleton l c ih =>
      intro hdist p
      have hdl : (l.map abCallPath).Nodup := by
        rw [List.map_append] at hdist
        exact (List.nodup_append.mp hdist).1
      obtain ⟨hrows, hnext, hen⟩ := runAuto_state (fun _ => true) l
      rw [runAuto_append (fun _ => true) l [c]]
      set S := runAuto (fun _ => true) l st0 with hS
      have hstep : runAuto (fun _ => true) [c] S
          = cleanup_old_auto_backups (fun _ => true) 20
              { S with
                files := fsSet S.files (abCallPath c) c.dbBytes
                rows := ⟨S.nextId, c.tag, abCallPath c⟩ :: S.rows
                nextId := S.nextId + 1 } :=
        runAuto_step (fun _ => true) c S hen
      rw [hstep]
      have hfiles : (cleanup_old_auto_backups (fun _ => true) 20
          { S with
            files := fsSet S.files (abCallPath c) c.dbBytes
            rows := ⟨S.nextId, c.tag, abCallPath c⟩ :: S.rows
            nextId := S.nextId + 1 }).files
          = ((⟨S.nextId, c.tag, abCallPath c⟩ :: S.rows).drop 20).foldl
              (fun fs r =>
                if fsExists fs r.file_path && (fun _ : String => true) r.file_path
                then fsRemove fs r.file_path else fs)
              (fsSet S.files (abCallPath c) c.dbBytes) := rfl
      have hrowsres : (cleanup_old_auto_backups (fun _ => true) 20
          { S with
            files := fsSet S.files (abCallPath c) c.dbBytes
            rows := ⟨S.nextId, c.tag, abCallPath c⟩ :: S.rows
            nextId := S.nextId + 1 }).rows
          = (⟨S.nextId, c.tag, abCallPath c⟩ :: S.rows).take 20 := by
        have hval : (cleanup_old_auto_backups (fun _ => true) 20
            { S with
              files := fsSet S.files (abCallPath c) c.dbBytes
              rows := ⟨S.nextId, c.tag, abCallPath c⟩ :: S.rows
              nextId := S.nextId + 1 }).rows
            = (⟨S.nextId, c.tag, abCallPath c⟩ :: S.rows).filter
                (fun r => !((((⟨S.nextId, c.tag, abCallPath c⟩ :: S.rows).drop 20).map
                  (fun r : ABRow => r.id)).contains r.id)) := rfl
        have hids : ((⟨S.nextId, c.tag, abCallPath c⟩ :: S.rows).map
            (fun r : ABRow => r.id)).Nodup := by
          rw [List.map_cons, hrows, expectedRows_ids, hnext]
          change ((l.length + 1) :: (List.range' 1 l.length).reverse.take 20).Nodup
          refine List.nodup_cons.mpr ⟨?_, ?_⟩
          · intro hmem
            have h2 := (List.take_sublist _ _).subset hmem
            rw [List.mem_reverse, List.mem_range'] at h2
            obtain ⟨i, hi, heq⟩ := h2
            omega
          · exact (List.take_sublist _ _).nodup
              (List.nodup_reverse.mpr (List.nodup_range' 1 l.length))
        rw [hval, filter_drop_ids _ 20 hids]
      rw [hfiles, hrowsres]
      rw [removeFold_exists (fun _ => true) (fun _ => rfl) _ _ p]
      rw [fsExists_fsSet, ih hdl p]
      -- both sides in terms of the path list of all rows
      have hallrows : (⟨S.nextId, c.tag, abCallPath c⟩ :: S.rows).map
          (fun r : ABRow => r.file_path)
          = abCallPath c :: S.rows.map (fun r : ABRow => r.file_path) := rfl
      have hSpaths : S.rows.map (fun r : ABRow => r.file_path)
          = (l.map abCallPath).reverse.take 20 := by
        rw [hrows, expectedRows_paths]
      have hallpaths : (⟨S.nextId, c.tag, abCallPath c⟩ :: S.rows).map
          (fun r : ABRow => r.file_path)
          = (((l ++ [c]).map abCallPath).reverse).take 21 := by
        rw [hallrows, hSpaths, List.map_append, List.reverse_append]
        rfl
      have hnodup : ((⟨S.nextId, c.tag, abCallPath c⟩ :: S.rows).map
          (fun r : ABRow => r.file_path)).Nodup := by
        rw [hallpaths]
        exact (List.take_sublist _ _).nodup (List.nodup_reverse.mpr hdist)
      have hdropmap : ((⟨S.nextId, c.tag, abCallPath c⟩ :: S.rows).drop 20).map
          (fun r : ABRow => r.file_path)
          = ((⟨S.nextId, c.tag, abCallPath c⟩ :: S.rows).map
              (fun r : ABRow => r.file_path)).drop 20 :=
        List.map_drop _ _ _
      have htakemap : ((⟨S.nextId, c.tag, abCallPath c⟩ :: S.rows).take 20).map
          (fun r : ABRow => r.file_path)
          = ((⟨S.nextId, c.tag, abCallPath c⟩ :: S.rows).map
              (fun r : ABRow => r.file_path)).take 20 :=
        List.map_take _ _ _
      rw [hdropmap, htakemap]
      rw [mem_take_iff_of_nodup _ 20 hnodup p]
      simp only [hallrows, List.mem_cons]

/-- C6: after more than 20 successful auto snapshots from a fresh state
(with distinct snapshot filenames), exactly 20 AutoBackupRecords remain;
they are the 20 most recent by creation order; their files exist on
storage; the pruned files no longer exist; and the rows kept are the
same for every file-deletion oracle (a failed delete never aborts or
changes the snapshot's row retention). -/
theorem C6_retention_spec (calls : List ABCall)
    (hlen : 20 < calls.length)
    (hdist : (calls.map abCallPath).Nodup) :
    (runAuto (fun _ => true) calls st0).rows.length = 20 ∧
    (runAuto (fun _ => true) calls st0).rows.map (fun r : ABRow => r.file_path)
      = (calls.map abCallPath).reverse.take 20 ∧
    (∀ r ∈ (runAuto (fun _ => true) calls st0).rows,
      fsExists ((runAuto (fun _ => true) calls st0).files) r.file_path = true) ∧
    (∀ p ∈ ((calls.map abCallPath).reverse).drop 20,
      fsExists ((runAuto (fun _ => true) calls st0).files) p = false) ∧
    (∀ canDelete, (runAuto canDelete calls st0).rows
      = (runAuto (fun _ => true) calls st0).rows) := by
  obtain ⟨hrows, -, -⟩ := runAuto_state (fun _ => true) calls
  have hpaths : (runAuto (fun _ => true) calls st0).rows.map (fun r : ABRow => r.file_path)
      = (calls.map abCallPath).reverse.take 20 := by
    rw [hrows, expectedRows_paths]
  refine ⟨?_, hpaths, ?_, ?_, ?_⟩
  · have hlenmap : ((runAuto (fun _ => true) calls st0).rows.map
        (fun r : ABRow => r.file_path)).length
        = (runAuto (fun _ => true) calls st0).rows.length := List.length_map _ _
    rw [← hlenmap, hpaths, List.length_take, List.length_reverse, List.length_map]
    omega
  · intro r hr
    exact (runAuto_files calls hdist r.file_path).mpr (List.mem_map.mpr ⟨r, hr, rfl⟩)
  · intro p hp
    cases hex : fsExists ((runAuto (fun _ => true) calls st0).files) p
    · rfl
    · exfalso
      have hmem := (runAuto_files calls hdist p).mp hex
      rw [hpaths] at hmem
      have hnd : ((calls.map abCallPath).reverse).Nodup := List.nodup_reverse.mpr hdist
      exact ((mem_take_iff_of_nodup _ 20 hnd p).mp hmem).2 hp
  · intro canDelete
    obtain ⟨h1, -, -⟩ := runAuto_state canDelete calls
    rw [h1, hrows]

/-- C6 witness: 21 snapshots with distinct timestamps leave exactly 20
records. -/
theorem C6_retention_spec_witness :
    (runAuto (fun _ => true)
      ((List.range 21).map (fun i => ABCall.mk "a" (Nat.repr i) "b")) st0).rows.length
      = 20 :=
  (C6_retention_spec ((List.range 21).map (fun i => ABCall.mk "a" (Nat.repr i) "b"))
    (by decide) (by decide)).1

/-! ## ArchiveBuilder (source lines 558-837) -/

/-- `os.path.basename`. -/
def basename (p : String) : String := (p.splitOn "/").getLastD ""

/-- The joined faena row of the exporters (source lines 569-575):
`SELECT f.*, m.nombre, cf.nombre, cf.file_path FROM faenas f JOIN
mandantes m ... LEFT JOIN contratos_faena cf ... WHERE f.id = ?`,
`iloc[0]`. -/
structure FRow where
  f : Faena
  mandante_nombre : String
  contrato_nombre : Option String
  contrato_path : Option String
deriving DecidableEq

def lookupFRow (s : Store) (fid : Nat) : Option FRow :=
  ((s.faenas.filter (fun f => f.id == fid)).filterMap (fun f =>
    (s.mandantes.find? (fun m => m.id == f.mandante_id)).map (fun m =>
      match f.contrato_faena_id.bind
          (fun cid => s.contratos_faena.find? (fun cf => cf.id == cid)) with
      | none => FRow.mk f m.nombre none none
      | some cf => FRow.mk f m.nombre (some cf.nombre) cf.file_path))).head?

/-- Python `x or default` on a nullable string: `None` and `""` are
falsy. -/
def pyOrOpt (o : Option String) (d : String) : String :=
  match o with
  | none => d
  | some s => if s = "" then d else s

def pyOrStr (s d : String) : String := if s = "" then d else s

/-- The `99_Index_Pendientes.txt` lines, shared verbatim by
`export_zip_for_faena` (592-614) and the per-faena loop of
`export_zip_for_mes` (762-784). -/
def manifestLines (s : Store) (fr : FRow) : List String :=
  let pend := pendientes_obligatorios s fr.f.id
  let missEmp := pendientes_empresa_faena s fr.f.id
  ["MANDANTE: " ++ fr.mandante_nombre,
   "FAENA: " ++ fr.f.nombre,
   "ESTADO: " ++ fr.f.estado,
   "INICIO: " ++ fr.f.fecha_inicio ++ " | TERMINO: " ++ pyOrOpt fr.f.fecha_termino "-",
   "UBICACION: " ++ pyOrStr fr.f.ubicacion "-",
   "CONTRATO_FAENA: " ++ pyOrOpt fr.contrato_nombre "(sin contrato cargado)",
   "",
   "PENDIENTES DOCUMENTOS OBLIGATORIOS POR TRABAJADOR:"] ++
  (if pend.isEmpty then ["- (sin trabajadores asignados)"]
   else pend.map (fun kv =>
     if kv.2.isEmpty then "* " ++ kv.1 ++ ": OK"
     else "* " ++ kv.1 ++ ": faltan " ++ String.intercalate ", " kv.2)) ++
  ["",
   "PENDIENTES DOCUMENTOS EMPRESA (POR FAENA):"] ++
  (if missEmp.isEmpty then ["* OK"]
   else ["* faltan: " ++ String.intercalate ", " missEmp])

/-- One archive entry for a file-only record (contract, annex): skipped
when the recorded path is empty (falsy) or the file no longer exists. -/
def docFileEntry (fs : FS) (dir : String) (src : String) : List (String × String) :=
  if src = "" then []
  else match fsGet fs src with
    | some content => [(dir ++ "/" ++ basename src, content)]
    | none => []

/-- One archive entry for a typed document record, under a
`safe_name`-d type folder; same skip rules. -/
def docTipoEntry (fs : FS) (dir tipo src : String) : List (String × String) :=
  if src = "" then []
  else match fsGet fs src with
    | some content => [(dir ++ "/" ++ safe_name tipo ++ "/" ++ basename src, content)]
    | none => []

/-- `set(x) if x else None`: an empty or missing allow-list means "no
filter". -/
def mkFilter (o : Option (List String)) : Option (List String) :=
  match o with
  | some (x :: xs) => some (x :: xs)
  | _ => none

def passFilter (filt : Option (List String)) (tipo : String) : Bool :=
  match filt with
  | none => true
  | some l => l.contains tipo

def byIdAnexo (a b : FaenaAnexo) : Bool := decide (a.id ≤ b.id)
def byIdEmp (a b : EmpresaDocumento) : Bool := decide (a.id ≤ b.id)
def byIdFEmp (a b : FaenaEmpresaDocumento) : Bool := decide (a.id ≤ b.id)
def byIdTDoc (a b : TrabajadorDocumento) : Bool := decide (a.id ≤ b.id)

def faenaAnexosOf (s : Store) (fid : Nat) : List FaenaAnexo :=
  sortByKey byIdAnexo (s.faena_anexos.filter (fun a => a.faena_id == fid))

def empDocsSorted (s : Store) : List EmpresaDocumento :=
  sortByKey byIdEmp s.empresa_documentos

def faenaEmpDocsOf (s : Store) (fid : Nat) : List FaenaEmpresaDocumento :=
  sortByKey byIdFEmp (s.faena_empresa_documentos.filter (fun d => d.faena_id == fid))

def trabDocsOf (s : Store) (tid : Nat) : List TrabajadorDocumento :=
  sortByKey byIdTDoc (s.trabajador_documentos.filter (fun d => d.trabajador_id == tid))

def trabajador_folder (apellidos nombres rut : String) : String :=
  safe_name apellidos ++ "_" ++ safe_name nombres ++ "_" ++ safe_name rut

def contratoEntries (fs : FS) (fr : FRow) : List (String × String) :=
  match fr.contrato_path with
  | none => []
  | some cp => docFileEntry fs "00_Contrato_Faena" cp

def anexoEntries (s : Store) (fs : FS) (fid : Nat) : List (String × String) :=
  (faenaAnexosOf s fid).flatMap (fun a => docFileEntry fs "01_Anexos_Faena" a.file_path)

def empGlobEntries (s : Store) (fs : FS) (filt : Option (List String)) :
    List (String × String) :=
  (empDocsSorted s).flatMap (fun d =>
    if passFilter filt d.doc_tipo
    then docTipoEntry fs "02_Documentos_Empresa" d.doc_tipo d.file_path
    else [])

def empFaenaEntries (s : Store) (fs : FS) (filt : Option (List String)) (fid : Nat) :
    List (String × String) :=
  (faenaEmpDocsOf s fid).flatMap (fun d =>
    if passFilter filt d.doc_tipo
    then docTipoEntry fs "02_Documentos_Empresa_Faena" d.doc_tipo d.file_path
    else [])

def trabEntries (s : Store) (fs : FS) (filt : Option (List String)) (fid : Nat) :
    List (String × String) :=
  (assignedTrabajadores s fid).flatMap (fun t =>
    (trabDocsOf s t.id).flatMap (fun d =>
      if passFilter filt d.doc_tipo
      then docTipoEntry fs
        ("03_Trabajadores/" ++ trabajador_folder t.apellidos t.nombres t.rut)
        d.doc_tipo d.file_path
      else []))

/-- `export_zip_for_faena` (source lines 558-686), the archive as an
ordered list of `(entry name, content)`.  Note line 616 of the source:
the manifest is joined with the two-character literal `\n` escape
(`"\\n".join(idx)` in the Python text), not with newlines. -/
def export_zip_for_faena (s : Store) (fs : FS) (fid : Nat)
    (include_global_empresa_docs include_contrato include_anexos
      include_empresa_faena include_trabajadores : Bool)
    (doc_types_empresa_global doc_types_empresa_faena doc_types_trabajador :
      Option (List String)) :
    Except String (List (String × String) × String) :=
  match lookupFRow s fid with
  | none => Except.error "Faena no encontrada."
  | some fr =>
      Except.ok (
        ("99_Index_Pendientes.txt",
          String.intercalate "\\n" (manifestLines s fr)) ::
        ((if include_contrato then contratoEntries fs fr else []) ++
         (if include_anexos then anexoEntries s fs fid else []) ++
         (if include_global_empresa_docs
          then empGlobEntries s fs (mkFilter doc_types_empresa_global) else []) ++
         (if include_empresa_faena
          then empFaenaEntries s fs (mkFilter doc_types_empresa_faena) fid else []) ++
         (if include_trabajadores
          then trabEntries s fs (mkFilter doc_types_trabajador) fid else [])),
        fr.f.nombre)

def pad2 (n : Nat) : String :=
  if n < 10 then "0" ++ Nat.repr n else Nat.repr n

def pad4 (n : Nat) : String :=
  if n < 10 then "000" ++ Nat.repr n
  else if n < 100 then "00" ++ Nat.repr n
  else if n < 1000 then "0" ++ Nat.repr n
  else Nat.repr n

/-- `f"{year:04d}-{month:02d}"`. -/
def mkYm (y m : Nat) : String := pad4 y ++ "-" ++ pad2 m

def mesIndexLines (ym : String) (rows : List (Faena × String)) : List String :=
  ["EXPORT MENSUAL: " ++ ym,
   "FAENAS INCLUIDAS: " ++ Nat.repr rows.length,
   ""] ++
  rows.map (fun p =>
    "- " ++ Nat.repr p.1.id ++ ": " ++ p.2 ++ " / " ++ p.1.nombre ++
      " (" ++ p.1.estado ++ ") inicio " ++ p.1.fecha_inicio)

/-- The per-faena subtree of the monthly export (source lines 744-833):
the same queries and entry layout as `export_zip_for_faena` with all
categories except the global company documents, every name under the
`prefix`, no type filters — and the manifest joined with real
newlines. -/
def mesSubtree (s : Store) (fs : FS) (pfx : String) (fid : Nat) :
    List (String × String) :=
  match lookupFRow s fid with
  | none => []
  | some fr =>
      (pfx ++ "/99_Index_Pendientes.txt",
        String.intercalate "\n" (manifestLines s fr)) ::
      (contratoEntries fs fr ++ anexoEntries s fs fid ++
        empFaenaEntries s fs none fid ++ trabEntries s fs none fid).map
        (fun e => (pfx ++ "/" ++ e.1, e.2))

/-- `export_zip_for_mes` (source lines 700-837). -/
def export_zip_for_mes (s : Store) (fs : FS) (y m : Nat)
    (include_global_empresa_docs : Bool) :
    Except String (List (String × String) × String) :=
  let ym := mkYm y m
  let sel := (faenasJoined s).filter (fun p => p.1.fecha_inicio.take 7 == ym)
  if sel.isEmpty then Except.error "No hay faenas para ese mes."
  else
    Except.ok (
      (ym ++ "/00_Index_Mes.txt", String.intercalate "\n" (mesIndexLines ym sel)) ::
      ((if include_global_empresa_docs then
          (empDocsSorted s).flatMap (fun d =>
            docTipoEntry fs (ym ++ "/00_Documentos_Empresa_Global")
              d.doc_tipo d.file_path)
        else []) ++
       sel.flatMap (fun p =>
         mesSubtree s fs
           (ym ++ "/FAENA_" ++ Nat.repr p.1.id ++ "_" ++ safe_name p.1.nombre)
           p.1.id)),
      ym)

/-! ## C7: site export error behavior and missing-file skipping -/

theorem lookupFRow_isSome_iff (s : Store) (fid : Nat)
    (hfk : ∀ f ∈ s.faenas, ∃ m ∈ s.mandantes, m.id = f.mandante_id) :
    (lookupFRow s fid).isSome = true ↔ ∃ f ∈ s.faenas, f.id = fid := by
  unfold lookupFRow
  constructor
  · intro h
    rw [Option.isSome_iff_exists] at h
    obtain ⟨fr, hfr⟩ := h
    have hmem := List.mem_of_mem_head? hfr
    rw [List.mem_filterMap] at hmem
    obtain ⟨f, hf, -⟩ := hmem
    rw [List.mem_filter] at hf
    exact ⟨f, hf.1, by simpa using hf.2⟩
  · rintro ⟨f, hf, hid⟩
    obtain ⟨mnd, hm, hmid⟩ := hfk f hf
    have hfil : f ∈ s.faenas.filter (fun f => f.id == fid) :=
      List.mem_filter.mpr ⟨hf, by simp [hid]⟩
    have hfind : (s.mandantes.find? (fun mm => mm.id == f.mandante_id)).isSome = true :=
      List.find?_isSome.mpr ⟨mnd, hm, by simp [hmid]⟩
    rw [Option.isSome_iff_exists] at hfind
    obtain ⟨m0, hm0⟩ := hfind
    have hfnsome : ∃ fr, ((s.mandantes.find? (fun mm => mm.id == f.mandante_id)).map
        (fun m => match f.contrato_faena_id.bind
            (fun cid => s.contratos_faena.find? (fun cf => cf.id == cid)) with
          | none => FRow.mk f m.nombre none none
          | some cf => FRow.mk f m.nombre (some cf.nombre) cf.file_path)) = some fr := by
      rw [hm0]
      exact ⟨_, rfl⟩
    obtain ⟨fr, hfr⟩ := hfnsome
    refine List.head?_isSome.mpr ?_
    intro hnil
    have hmemrow : fr ∈ ([] : List FRow) := by
      rw [← hnil]
      refine List.mem_filterMap.mpr ⟨f, hfil, ?_⟩
      exact hfr
    simp at hmemrow

/-- C7: `export_zip_for_faena` fails with the NotFound error iff the
site does not exist (assuming referential integrity of `mandante_id`),
independently of the filesystem; and documents whose recorded path no
longer exists contribute nothing to any category — skipped silently,
never an error. -/
theorem C7_export_faena_spec (s : Store) (fs : FS) (fid : Nat)
    (ig ic ia ie it : Bool)
    (tg tf tt : Option (List String))
    (hfk : ∀ f ∈ s.faenas, ∃ m ∈ s.mandantes, m.id = f.mandante_id) :
    ((∃ f ∈ s.faenas, f.id = fid) →
      ∃ e, export_zip_for_faena s fs fid ig ic ia ie it tg tf tt = Except.ok e) ∧
    (¬(∃ f ∈ s.faenas, f.id = fid) →
      export_zip_for_faena s fs fid ig ic ia ie it tg tf tt
        = Except.error "Faena no encontrada.") ∧
    (∀ fs' : FS,
      (∃ e, export_zip_for_faena s fs fid ig ic ia ie it tg tf tt = Except.ok e) ↔
      (∃ e, export_zip_for_faena s fs' fid ig ic ia ie it tg tf tt = Except.ok e)) ∧
    (∀ (fs' : FS) (dir tipo src : String), fsExists fs' src = false →
      docTipoEntry fs' dir tipo src = []) ∧
    (∀ (fs' : FS) (dir src : String), fsExists fs' src = false →
      docFileEntry fs' dir src = []) := by
  have hok : ∀ fs' : FS,
      (∃ e, export_zip_for_faena s fs' fid ig ic ia ie it tg tf tt = Except.ok e) ↔
      (lookupFRow s fid).isSome = true := by
    intro fs'
    unfold export_zip_for_faena
    rcases hl : lookupFRow s fid with _ | fr
    · constructor
      · rintro ⟨e, he⟩
        exact absurd he (by simp)
      · intro h
        simp at h
    · constructor
      · intro _
        rfl
      · intro _
        exact ⟨_, rfl⟩
  have hgetnone : ∀ (fs' : FS) (src : String), fsExists fs' src = false →
      fsGet fs' src = none := by
    intro fs' src h
    unfold fsExists at h
    unfold fsGet
    cases hf : (fs'.find? (fun e => e.1 == src)) with
    | none => rfl
    | some e =>
        rw [hf] at h
        exact absurd h (by simp)
  refine ⟨?_, ?_, ?_, ?_, ?_⟩
  · intro hex
    exact (hok fs).mpr ((lookupFRow_isSome_iff s fid hfk).mpr hex)
  · intro hnex
    have : (lookupFRow s fid).isSome ≠ true := fun h =>
      hnex ((lookupFRow_isSome_iff s fid hfk).mp h)
    unfold export_zip_for_faena
    rcases hl : lookupFRow s fid with _ | fr
    · rfl
    · exfalso
      exact this (by rw [hl]; rfl)
  · intro fs'
    rw [hok fs, hok fs']
  · intro fs' dir tipo src h
    unfold docTipoEntry
    rw [hgetnone fs' src h]
    by_cases hsrc : src = ""
    · rw [if_pos hsrc]
    · rw [if_neg hsrc]
  · intro fs' dir src h
    unfold docFileEntry
    rw [hgetnone fs' src h]
    by_cases hsrc : src = ""
    · rw [if_pos hsrc]
    · rw [if_neg hsrc]

/-- C7 witness at the concrete one-site store. -/
theorem C7_export_faena_spec_witness :
    ∃ e, export_zip_for_faena egStore1 [] 1 true true true true true
      none none none = Except.ok e :=
  (C7_export_faena_spec egStore1 [] 1 true true true true true none none none
    (by decide)).1 (by decide)

/-! ## C8: monthly export vs site export -/

/-- Every entry of a monthly subtree is named under its prefix. -/
theorem mesSubtree_name_shape (s : Store) (fs : FS) (pfx : String) (fid : Nat) :
    ∀ e ∈ mesSubtree s fs pfx fid, ∃ y, e.1 = pfx ++ y := by
  intro e he
  unfold mesSubtree at he
  rcases hl : lookupFRow s fid with _ | fr
  · rw [hl] at he
    simp at he
  · rw [hl] at he
    rcases List.mem_cons.mp he with h1 | h1
    · refine ⟨"/99_Index_Pendientes.txt", ?_⟩
      rw [h1]
    · rw [List.mem_map] at h1
      obtain ⟨en, -, rfl⟩ := h1
      refine ⟨"/" ++ en.1, ?_⟩
      rw [String.append_assoc]

/-- A name under the `FAENA_` prefix never sits under the root global
company-documents folder. -/
theorem not_prefix_glob (ym rest : String) :
    pathHasPrefix (ym ++ "/00_Documentos_Empresa_Global/")
      ((ym ++ "/FAENA_") ++ rest) = false := by
  cases h : pathHasPrefix (ym ++ "/00_Documentos_Empresa_Global/")
      ((ym ++ "/FAENA_") ++ rest) with
  | false => rfl
  | true =>
      exfalso
      unfold pathHasPrefix at h
      rw [List.isPrefixOf_iff_prefix] at h
      obtain ⟨t, ht⟩ := h
      rw [String.data_append, String.data_append, String.data_append] at ht
      rw [List.append_assoc, List.append_assoc] at ht
      have ht2 := List.append_cancel_left ht
      have h1 : (("/00_Documentos_Empresa_Global/".data ++ t))[1]? = some '0' := by
        rw [List.getElem?_append_left (by decide)]
        rfl
      have h2 : (("/FAENA_".data ++ rest.data))[1]? = some 'F' := by
        rw [List.getElem?_append_left (by decide)]
        rfl
      rw [ht2] at h1
      rw [h1] at h2
      simp at h2

/-- C8 (amended): the monthly export selects exactly the sites whose
start month equals the key and fails when none match; on success the
archive is the month index, then (if requested) the global company
documents exactly once at the root — no subtree entry lies under that
root folder — then one subtree per selected site; and each subtree
carries, prefixed, exactly the entries `export_zip_for_faena` would
produce for that site with every category except the global company
documents and no filters, except that the pending manifest's (identical)
lines are joined with newlines here but with the two-character `\n`
escape there. -/
theorem C8_export_mes_spec (s : Store) (fs : FS) (y m : Nat) (ig : Bool) :
    (((faenasJoined s).filter
        (fun p => p.1.fecha_inicio.take 7 == mkYm y m)) = [] →
      export_zip_for_mes s fs y m ig = Except.error "No hay faenas para ese mes.") ∧
    (∀ p, p ∈ (faenasJoined s).filter
        (fun p => p.1.fecha_inicio.take 7 == mkYm y m) ↔
      (p ∈ faenasJoined s ∧ p.1.fecha_inicio.take 7 = mkYm y m)) ∧
    (((faenasJoined s).filter
        (fun p => p.1.fecha_inicio.take 7 == mkYm y m)) ≠ [] →
      export_zip_for_mes s fs y m ig = Except.ok (
        (mkYm y m ++ "/00_Index_Mes.txt",
          String.intercalate "\n" (mesIndexLines (mkYm y m)
            ((faenasJoined s).filter
              (fun p => p.1.fecha_inicio.take 7 == mkYm y m)))) ::
        ((if ig then
            (empDocsSorted s).flatMap (fun d =>
              docTipoEntry fs (mkYm y m ++ "/00_Documentos_Empresa_Global")
                d.doc_tipo d.file_path)
          else []) ++
         ((faenasJoined s).filter
            (fun p => p.1.fecha_inicio.take 7 == mkYm y m)).flatMap (fun p =>
           mesSubtree s fs
             (mkYm y m ++ "/FAENA_" ++ Nat.repr p.1.id ++ "_" ++ safe_name p.1.nombre)
             p.1.id)),
        mkYm y m)) ∧
    (∀ e ∈ ((faenasJoined s).filter
        (fun p => p.1.fecha_inicio.take 7 == mkYm y m)).flatMap (fun p =>
          mesSubtree s fs
            (mkYm y m ++ "/FAENA_" ++ Nat.repr p.1.id ++ "_" ++ safe_name p.1.nombre)
            p.1.id),
      pathHasPrefix (mkYm y m ++ "/00_Documentos_Empresa_Global/") e.1 = false) ∧
    (∀ (fid : Nat) (fr : FRow) (pfx : String), lookupFRow s fid = some fr →
      ∃ tail,
        export_zip_for_faena s fs fid false true true true true none none none
          = Except.ok (("99_Index_Pendientes.txt",
              String.intercalate "\\n" (manifestLines s fr)) :: tail, fr.f.nombre) ∧
        mesSubtree s fs pfx fid
          = (pfx ++ "/" ++ "99_Index_Pendientes.txt",
              String.intercalate "\n" (manifestLines s fr)) ::
            tail.map (fun en => (pfx ++ "/" ++ en.1, en.2))) := by
  refine ⟨?_, ?_, ?_, ?_, ?_⟩
  · intro h
    simp only [export_zip_for_mes]
    rw [h]
    rfl
  · intro p
    rw [List.mem_filter]
    simp
  · intro h
    simp only [export_zip_for_mes]
    rcases hsel : (faenasJoined s).filter
        (fun p => p.1.fecha_inicio.take 7 == mkYm y m) with _ | ⟨p0, rest⟩
    · exact absurd hsel h
    · rw [hsel]
      rfl
  · intro e he
    rw [List.mem_flatMap] at he
    obtain ⟨p, -, hin⟩ := he
    obtain ⟨y0, hy⟩ := mesSubtree_name_shape s fs _ _ e hin
    rw [hy]
    have hform : mkYm y m ++ "/FAENA_" ++ Nat.repr p.1.id ++ "_" ++ safe_name p.1.nombre ++ y0
        = (mkYm y m ++ "/FAENA_") ++
          (Nat.repr p.1.id ++ "_" ++ safe_name p.1.nombre ++ y0) := by
      simp [String.append_assoc]
    rw [hform]
    exact not_prefix_glob (mkYm y m) _
  · intro fid fr pfx hlook
    refine ⟨contratoEntries fs fr ++ anexoEntries s fs fid ++
      empFaenaEntries s fs none fid ++ trabEntries s fs none fid, ?_, ?_⟩
    · unfold export_zip_for_faena
      rw [hlook]
      simp [mkFilter]
    · unfold mesSubtree
      rw [hlook]
      have hname : pfx ++ "/99_Index_Pendientes.txt"
          = pfx ++ "/" ++ "99_Index_Pendientes.txt" := by
        rw [String.append_assoc pfx "/" "99_Index_Pendientes.txt"]
        rfl
      rw [hname]

/-- A one-site store with a single global company document whose file
exists. -/
def egStore8 : Store :=
  { mandantes := [{ id := 1, nombre := "M" }]
    contratos_faena := []
    faenas := [{ id := 1, mandante_id := 1, contrato_faena_id := none,
                 nombre := "f", ubicacion := "", fecha_inicio := "2025-01-10",
                 fecha_termino := none, estado := "ACTIVA" }]
    faena_anexos := []
    trabajadores := []
    asignaciones := []
    trabajador_documentos := []
    empresa_documentos := [{ id := 1, doc_tipo := "OTROS", file_path := "u/g1" }]
    faena_empresa_documentos := [] }

def egFs8 : FS := [("u/g1", "G")]

/-- C8 counterexample: the site's subtree inside the monthly archive,
stripped of its prefix, is not the entry list `export_zip_for_faena`
produces for that site with all categories included and no filters: the
subtree lacks the global company document and its manifest is joined
with real newlines while the site archive joins with the literal `\n`
escape. -/
theorem C8_subtree_cex :
    (export_zip_for_mes egStore8 egFs8 2025 1 true).toOption.isSome = true ∧
    (export_zip_for_faena egStore8 egFs8 1 true true true true true
        none none none).toOption.isSome = true ∧
    ((export_zip_for_mes egStore8 egFs8 2025 1 true).toOption.map (fun mes =>
        mes.1.filterMap (fun e =>
          if pathHasPrefix "2025-01/FAENA_1_f/" e.1
          then some (e.1.drop "2025-01/FAENA_1_f/".length, e.2) else none)))
      ≠ ((export_zip_for_faena egStore8 egFs8 1 true true true true true
          none none none).toOption.map (fun site => site.1)) := by
  decide

/-- C8 witness: the failure case when no site starts in the month. -/
def egStoreEmpty : Store := ⟨[], [], [], [], [], [], [], [], []⟩

theorem C8_export_mes_spec_witness :
    export_zip_for_mes egStoreEmpty [] 2025 1 true
      = Except.error "No hay faenas para ese mes." :=
  (C8_export_mes_spec egStoreEmpty [] 2025 1 true).1 (by decide)

end GYD


